import Mathlib

/-!
# Verification of the `mypack` bundler (`src/script/tools/mypack.ts`)

A shallow embedding of the module bundler: source intake, module-graph
construction (BFS over `require` calls), load-call rewriting, circular
reference checking, runtime-wrapper emission, source-map merging and the
incremental hash cache, together with theorems settling the frozen claims
about it.

JavaScript strings are modelled as `List Char` (all inputs of interest are
ASCII, so UTF-16 code-unit indices coincide with list indices).  External
collaborators (the `path` module, `crypto-js` SHA256, `terser`, the
`source-map` consumer/generator serialization) are modelled as follows: the
Node `path` functions are re-implemented faithfully for POSIX paths; the
digest, minifier and map (de)serialization functions are opaque parameters
gathered in an `Env` structure, since the bundler only ever treats them as
black boxes.
-/

set_option maxHeartbeats 1000000

namespace MyPack

/-- JavaScript string, as a list of UTF-16 code units (here: charactes). -/
abbrev Str := List Char

/-- Embed a Lean string literal as a JS string. -/
def strLit (s : String) : Str := s.data

instance : DecidableEq Str := inferInstanceAs (DecidableEq (List Char))

/-- JS `s.slice(a, b)` for `0 ≤ a ≤ b` (the only use sites in the source). -/
def jsSlice (s : Str) (a b : Nat) : Str := (s.drop a).take (b - a)

/-- JS `s.slice(a)` for `0 ≤ a`. -/
def jsSliceFrom (s : Str) (a : Nat) : Str := s.drop a

/-- JS `s.endsWith(t)`. -/
def jsEndsWith (s t : Str) : Bool := t.isSuffixOf s

/-- JS `s.slice(0, -n)`: drop the last `n` characters. -/
def jsDropLast (s : Str) (n : Nat) : Str := s.take (s.length - n)

/-! ## The Node `path` module (POSIX flavour)

`mypack.ts` uses `path.dirname`, `path.resolve` and `path.relative`.  These
are modelled from the Node.js POSIX implementations.  `path.resolve` falls
back to the process working directory for relative inputs, so it takes the
cwd as an explicit argument here. -/

/-- `path.dirname` (POSIX): strip trailing separators, then strip the last
path component.  Mirrors the index scan of the Node implementation. -/
def pathDirname (p : Str) : Str :=
  if p = [] then strLit "." else
  let hasRoot := p.head? = some '/'
  -- `p.reverse` with the trailing slashes removed, then the final
  -- non-slash component removed: what is left starts (reversed) with the
  -- separator Node's scan stops at (`end` in the Node source).
  let rev2 := ((p.reverse.dropWhile (fun c => c = '/')).dropWhile (fun c => ¬ c = '/'))
  if rev2.length ≤ 1 then (if hasRoot then strLit "/" else strLit ".")
  else if rev2.length = 2 ∧ hasRoot ∧ p.take 2 = strLit "//" then strLit "//"
  else p.take (rev2.length - 1)

/-- One step of POSIX path normalization: process the split segments with a
stack, resolving `.` and `..` (`..` above the root of an absolute path is
discarded; for relative paths it is kept, per Node `normalizeString`). -/
def normalizeSegs (absolute : Bool) : List Str → List Str → List Str
  | acc, [] => acc.reverse
  | acc, seg :: rest =>
    if seg = [] ∨ seg = strLit "." then normalizeSegs absolute acc rest
    else if seg = strLit ".." then
      match acc with
      | [] => if absolute then normalizeSegs absolute [] rest
              else normalizeSegs absolute [strLit ".."] rest
      | top :: acc' =>
        if top = strLit ".." then normalizeSegs absolute (seg :: acc) rest
        else normalizeSegs absolute acc' rest
    else normalizeSegs absolute (seg :: acc) rest

/-- Split a path on `/` (keeping empty segments, as Node's scanner does
before they are discarded by normalization). -/
def splitSlash (p : Str) : List Str :=
  p.splitOn '/'

/-- Join segments with `/`. -/
def joinSegs (segs : List Str) : Str :=
  (segs.intersperse (strLit "/")).foldr (· ++ ·) []

/-- `path.resolve(...paths)` (POSIX): walk the arguments right to left,
prepending, until an absolute path is found (falling back to `cwd`), then
normalize.  Mirrors Node `posix.resolve`. -/
def pathResolveCore (cwd : Str) (paths : List Str) : Str :=
  let rec accum : List Str → Str × Bool
    | [] =>
      if cwd = [] then ([], false)
      else (cwd ++ strLit "/", cwd.head? = some '/')
    | p :: rest =>
      if p = [] then accum rest
      else if p.head? = some '/' then (p ++ strLit "/", true)
      else
        let (acc, abs) := accum rest
        (acc ++ p ++ strLit "/", abs)
  let (joined, absolute) := accum paths.reverse
  let norm := joinSegs (normalizeSegs absolute [] (splitSlash joined))
  if absolute then '/' :: norm
  else if norm = [] then strLit "." else norm

/-- Drop the longest common prefix of two segment lists. -/
def dropCommon : List Str → List Str → List Str × List Str
  | a :: as, b :: bs => if a = b then dropCommon as bs else (a :: as, b :: bs)
  | as, bs => (as, bs)

/-- `path.relative(from, to)` (POSIX): resolve both, drop the common
prefix segments, go up with `..` for what remains of `from` and descend
into what remains of `to`. -/
def pathRelative (cwd fromP toP : Str) : Str :=
  let f := pathResolveCore cwd [fromP]
  let t := pathResolveCore cwd [toP]
  if f = t then [] else
  let fs := (splitSlash f).filter (· ≠ [])
  let ts := (splitSlash t).filter (· ≠ [])
  let (fs', ts') := dropCommon fs ts
  joinSegs (fs'.map (fun _ => strLit "..") ++ ts')

/-! ## Load-call scanning (`mypack.ts:82-106`)

The source scans module content with the global regex
`/require\("(?<request>\.[\.\w\-\/]*)"\);/g` in an `exec` loop.  Because
`"` is not in the captured character class, the regex backtracks never:
a match at position `i` exists iff the text at `i` is literally
`require("` + (a maximal run of class characters starting with `.`) +
`");`.  The `exec` loop finds the leftmost match at or after `lastIndex`
and continues after the full matched text (`request.length + 12`
characters — the "rest part length 12" of the source comment). -/

/-- The character class `[\.\w\-\/]` of the request capture group
(`\w` is `[A-Za-z0-9_]` for a non-unicode JS regex). -/
def reqChar (c : Char) : Bool :=
  c = '.' ∨ (('A' ≤ c ∧ c ≤ 'Z') ∨ ('a' ≤ c ∧ c ≤ 'z') ∨ ('0' ≤ c ∧ c ≤ '9'))
    ∨ c = '_' ∨ c = '-' ∨ c = '/'

/-- Literal text of a full regex match with captured request `w`. -/
def requireText (w : Str) : Str :=
  strLit "require(\x22" ++ w ++ strLit "\x22);"

/-- Try to match the load-call regex at the head of `cs`; return the
captured request on success. -/
def matchAt (cs : Str) : Option Str :=
  if (strLit "require(\x22").isPrefixOf cs then
    match (cs.drop 9).head? with
    | some '.' =>
      if (strLit "\x22);").isPrefixOf
          ((cs.drop 9).drop ((cs.drop 9).takeWhile reqChar).length)
      then some ((cs.drop 9).takeWhile reqChar) else none
    | _ => none
  else none

/-- The `exec` loop: scan character by character; `i` is the absolute
position of the head of the remaining text, `skip` is the number of
characters of an already-consumed match still to pass over (the regex
`lastIndex` jump). Returns `(index, request)` pairs in match order. -/
def scanGo : Str → Nat → Nat → List (Nat × Str)
  | [], _, _ => []
  | _ :: cs, i, skip + 1 => scanGo cs (i + 1) skip
  | c :: cs, i, 0 =>
    match matchAt (c :: cs) with
    | some w => (i, w) :: scanGo cs (i + 1) (w.length + 11)
    | none => scanGo cs (i + 1) 0

/-- All load-call matches of a module's content. -/
def scanRequires (cs : Str) : List (Nat × Str) := scanGo cs 0 0

/-! ## Data model (`mypack.ts:14-55`) -/

/-- A raw source-map mapping, as yielded by `SourceMapConsumer.eachMapping`
(in generated order).  Lines and columns are JS numbers, modelled as `Int`. -/
structure RawMapping where
  src : Str
  originalLine : Int
  originalColumn : Int
  generatedLine : Int
  generatedColumn : Int
deriving DecidableEq, Repr

/-- A mapping added to the `SourceMapGenerator`. -/
structure GenMapping where
  src : Str
  originalLine : Int
  originalColumn : Int
  generatedLine : Int
  generatedColumn : Int
deriving DecidableEq, Repr

/-- One entry of `MyPackOptions['files']`: `{ name, content }`. -/
structure MFile where
  name : Str
  content : Str
deriving DecidableEq, Repr

/-- `interface Source { filename, jsContent, mapContent }`; `mapContent`
"can be missing even if source map is on" (source comment, line 34). -/
structure Source where
  filename : Str
  jsContent : Str
  mapContent : Option Str
deriving DecidableEq, Repr

/-- `interface ModuleRequest` (`mypack.ts:37-42`). -/
structure ModuleRequest where
  index : Nat
  raw : Str
  resolvedFileName : Str
  resolvedModuleName : Str
deriving DecidableEq, Repr

/-- `interface Module` (`mypack.ts:43-49`). -/
structure Module where
  name : Str
  source : Source
  requests : List ModuleRequest
  content : Str
  hash : Str
deriving DecidableEq, Repr

/-- `type MyPackResult = { success, hasChange? }`; `hasChange = none`
models the field being absent/undefined. -/
structure MyPackResult where
  success : Bool
  hasChange : Option Bool
deriving DecidableEq, Repr

inductive PackType | lib | app
deriving DecidableEq, Repr

/-- `MyPackOptions` (`mypack.ts:14-24`).  `cleanupFiles = none` models the
key being absent (the source tests `'cleanupFiles' in this.options`). -/
structure MyPackOptions where
  type : PackType
  entry : Str
  files : List MFile
  sourceMap : Bool
  output : Str
  printModules : Bool
  minifyEnabled : Bool
  shebang : Bool
  cleanupFiles : Option Bool

/-- What the packer keeps of a `Module` across runs: the heavy text fields
are nulled before `lastModules` is stored (`mypack.ts:283-289`), and only
`name`, `source.filename` and `hash` are read from `lastModules` afterwards
(in `printResult`). -/
structure StoredModule where
  name : Str
  filename : Str
  hash : Str
deriving DecidableEq, Repr

/-- The packer instance state carried across runs (`mypack.ts:59-60`). -/
structure PackerState where
  lastHash : Option Str
  lastModules : Option (List StoredModule)
deriving DecidableEq, Repr

/-- The state of a fresh packer: both fields `null`. -/
def initialState : PackerState := ⟨none, none⟩

/-- The external collaborators (opaque to the bundler): the process working
directory consumed by `path.resolve`/`path.relative`, the `crypto-js`
SHA256 digest, the `terser` minifier (code and map outputs), JSON+
`SourceMapConsumer` parsing of a companion map file, and
`SourceMapGenerator.toString` serialization.  The bundler only ever calls
these as black-box functions, so they are parameters of the model. -/
structure Env where
  cwd : Str
  digest : Str → Str
  minifyCode : Str → Str
  minifyMap : Str → Option Str → Option Str
  parseMap : Str → Option (List RawMapping)
  serializeMap : List GenMapping → Str

/-! ## Source intake (`MyPacker.getSources`, `mypack.ts:66-72`) -/

/-- Promote one selected file to a `Source`, pairing it with its
companion `.map` file from the full list. -/
def mkSource (files : List MFile) (f : MFile) : Source :=
  ⟨f.name, f.content,
    (files.find? (fun g => g.name = f.name ++ strLit ".map")).map (·.content)⟩

/-- Select the `.js` files and pair each with its companion `.map` file. -/
def getSources (files : List MFile) : List Source :=
  (files.filter (fun f => jsEndsWith f.name (strLit ".js"))).map (mkSource files)

/-! ## Module processing (`MyPacker.processModule`, `mypack.ts:74-118`) -/

/-- The module-name computation of `mypack.ts:75-78`: path relative to the
entry's directory; drop a trailing `.js`; drop a trailing `index`; an empty
result becomes `"."`. -/
def mkName (cwd entry filename : Str) : Str :=
  let m := pathRelative cwd (pathDirname entry) filename
  let m := if jsEndsWith m (strLit ".js") then jsDropLast m 3 else m
  let m := if jsEndsWith m (strLit "index") then jsDropLast m 5 else m
  if m.length = 0 then strLit "." else m

/-- The required-module-name computation of `mypack.ts:100-103`: same as
`mkName` except the `.js` suffix is dropped unconditionally ("it must end
with `.js`", source comment). -/
def mkRequiredName (cwd entry filename : Str) : Str :=
  let m := pathRelative cwd (pathDirname entry) filename
  let m := jsDropLast m 3
  let m := if jsEndsWith m (strLit "index") then jsDropLast m 5 else m
  if m.length = 0 then strLit "." else m

/-- Membership of a filename among the intake sources
(`this.sources.some(s => s.filename == ...)`). -/
def hasSource (sources : List Source) (f : Str) : Bool :=
  sources.any (fun s => s.filename = f)

/-- Load-call target resolution (`mypack.ts:89-93`): try the literal path,
then the path plus `.js`, then the path plus `/index.js`. -/
def resolveRequest (sources : List Source) (full : Str) : Option Str :=
  if hasSource sources full then some full
  else if hasSource sources (full ++ strLit ".js") then some (full ++ strLit ".js")
  else if hasSource sources (full ++ strLit "/index.js") then some (full ++ strLit "/index.js")
  else none

/-- The internal import call substituted for a load call (`mypack.ts:112`). -/
def myimportText (n : Str) : Str :=
  strLit "myimport(\x22" ++ n ++ strLit "\x22);"

/-- The rewrite loop of `mypack.ts:108-115`: slice the content around each
request (`previousEndIndex` bookkeeping), substituting the import call;
the matched span is `raw.length + 12` characters. -/
def rewriteGo (content : Str) : Nat → List ModuleRequest → Str
  | prev, [] => jsSliceFrom content prev
  | prev, r :: rs =>
    jsSlice content prev r.index ++ myimportText r.resolvedModuleName
      ++ rewriteGo content (r.index + r.raw.length + 12) rs

/-- Content after updating `require` to `myimport`. -/
def rewriteContent (content : Str) (reqs : List ModuleRequest) : Str :=
  rewriteGo content 0 reqs

/-- The reason `processModule` bails out: an unresolved load call (the
source logs `invalid module name <raw> at <index>` for `<filename>` and
returns `null`). -/
structure ResolveFailure where
  filename : Str
  raw : Str
  index : Nat
deriving DecidableEq, Repr

/-- Resolve all scanned load calls of a source into `ModuleRequest`s,
failing on the first unresolvable one, as the scan loop of
`mypack.ts:83-106` does. -/
def resolveRequests (env : Env) (sources : List Source) (entry : Str)
    (source : Source) : List (Nat × Str) → Except ResolveFailure (List ModuleRequest)
  | [] => .ok []
  | (i, raw) :: rest =>
    let full := pathResolveCore env.cwd [pathDirname source.filename, raw]
    match resolveRequest sources full with
    | none => .error ⟨source.filename, raw, i⟩
    | some rf =>
      match resolveRequests env sources entry source rest with
      | .error e => .error e
      | .ok rs => .ok (⟨i, raw, rf, mkRequiredName env.cwd entry rf⟩ :: rs)

/-- `MyPacker.processModule` (`mypack.ts:74-118`). -/
def processModule (env : Env) (sources : List Source) (entry : Str)
    (source : Source) : Except ResolveFailure Module :=
  match resolveRequests env sources entry source (scanRequires source.jsContent) with
  | .error e => .error e
  | .ok requests =>
    let content := rewriteContent source.jsContent requests
    .ok ⟨mkName env.cwd entry source.filename, source, requests, content,
      env.digest content⟩

/-! ## The module graph builder (`MyPacker.run`, `mypack.ts:231-239`)

The BFS loop: `requiredFileNames` starts as `[entry]`; each iteration
processes the next filename into a `Module` and appends the module's
resolved targets that are not yet anywhere in `requiredFileNames` (the
`includes` check is against the whole array: processed prefix and pending
suffix).  We keep the processed prefix as the produced modules `done` and
the unprocessed suffix as `pending`; `requiredFileNames` is then
`done.map (·.source.filename) ++ pending`.

Termination: every pushed filename is a member of the finite source list
(resolution only returns members) and is not yet in `requiredFileNames`,
so `(number of source filenames not yet in requiredFileNames,
length of pending)` decreases lexicographically. -/

/-- The intake filenames. -/
def sourceNames (sources : List Source) : List Str := sources.map (·.filename)

theorem hasSource_iff {sources : List Source} {f : Str} :
    hasSource sources f = true ↔ f ∈ sourceNames sources := by
  simp [hasSource, sourceNames, List.any_eq_true]

theorem contains_eq (l : List Str) (a : Str) : l.contains a = decide (a ∈ l) := by
  simp [List.contains, List.elem_eq_mem]

theorem resolveRequest_mem {sources : List Source} {full f : Str}
    (h : resolveRequest sources full = some f) : f ∈ sourceNames sources := by
  unfold resolveRequest at h
  by_cases h1 : hasSource sources full = true
  · rw [if_pos h1] at h; cases h; exact hasSource_iff.mp h1
  · rw [if_neg h1] at h
    by_cases h2 : hasSource sources (full ++ strLit ".js") = true
    · rw [if_pos h2] at h; cases h; exact hasSource_iff.mp h2
    · rw [if_neg h2] at h
      by_cases h3 : hasSource sources (full ++ strLit "/index.js") = true
      · rw [if_pos h3] at h; cases h; exact hasSource_iff.mp h3
      · rw [if_neg h3] at h; cases h

theorem resolveRequests_mem {env : Env} {sources : List Source} {entry : Str}
    {source : Source} {l : List (Nat × Str)} {rs : List ModuleRequest}
    (h : resolveRequests env sources entry source l = .ok rs) :
    ∀ r ∈ rs, r.resolvedFileName ∈ sourceNames sources := by
  induction l generalizing rs with
  | nil =>
    simp only [resolveRequests] at h
    cases h; intro r hr; cases hr
  | cons p rest ih =>
    obtain ⟨i, raw⟩ := p
    simp only [resolveRequests] at h
    set full := pathResolveCore env.cwd [pathDirname source.filename, raw] with hfull
    cases hres : resolveRequest sources full with
    | none => rw [hres] at h; cases h
    | some rf =>
      rw [hres] at h
      cases hrec : resolveRequests env sources entry source rest with
      | error e => rw [hrec] at h; cases h
      | ok rs' =>
        rw [hrec] at h
        cases h
        intro r hr
        rcases List.mem_cons.mp hr with hr | hr
        · subst hr; exact resolveRequest_mem hres
        · exact ih hrec r hr

theorem processModule_requests_mem {env : Env} {sources : List Source}
    {entry : Str} {source : Source} {m : Module}
    (h : processModule env sources entry source = .ok m) :
    ∀ r ∈ m.requests, r.resolvedFileName ∈ sourceNames sources := by
  unfold processModule at h
  cases hres : resolveRequests env sources entry source (scanRequires source.jsContent) with
  | error e => rw [hres] at h; cases h
  | ok requests => rw [hres] at h; cases h; exact resolveRequests_mem hres

theorem processModule_source {env : Env} {sources : List Source}
    {entry : Str} {source : Source} {m : Module}
    (h : processModule env sources entry source = .ok m) : m.source = source := by
  unfold processModule at h
  cases hres : resolveRequests env sources entry source (scanRequires source.jsContent) with
  | error e => rw [hres] at h; cases h
  | ok requests => rw [hres] at h; cases h; rfl

theorem length_filter_le_of_imp {α : Type} (l : List α) (p q : α → Bool)
    (h : ∀ a, q a = true → p a = true) :
    (l.filter q).length ≤ (l.filter p).length := by
  induction l with
  | nil => simp
  | cons a l ih =>
    by_cases hq : q a = true
    · rw [List.filter_cons_of_pos hq, List.filter_cons_of_pos (h a hq)]
      simpa using ih
    · rw [List.filter_cons_of_neg (by simpa using hq)]
      by_cases hp : p a = true
      · rw [List.filter_cons_of_pos hp]
        exact Nat.le_succ_of_le ih
      · rw [List.filter_cons_of_neg (by simpa using hp)]
        exact ih

theorem length_filter_lt_of_witness {α : Type} (l : List α) (p q : α → Bool)
    (h : ∀ a, q a = true → p a = true) (a : α) (ha : a ∈ l)
    (hpa : p a = true) (hqa : q a = false) :
    (l.filter q).length < (l.filter p).length := by
  induction l with
  | nil => cases ha
  | cons b l ih =>
    rcases List.mem_cons.mp ha with rfl | ha'
    · rw [List.filter_cons_of_neg (by simp [hqa]), List.filter_cons_of_pos hpa]
      exact Nat.lt_succ_of_le (length_filter_le_of_imp l p q h)
    · by_cases hq : q b = true
      · rw [List.filter_cons_of_pos hq, List.filter_cons_of_pos (h b hq)]
        simpa using ih ha'
      · rw [List.filter_cons_of_neg (by simpa using hq)]
        by_cases hp : p b = true
        · rw [List.filter_cons_of_pos hp]
          exact Nat.lt_succ_of_lt (ih ha')
        · rw [List.filter_cons_of_neg (by simpa using hp)]
          exact ih ha'

/-- BFS failure: `resolveFail` is `processModule` returning `null` (run
logs and returns `{success:false}`); `sourceNotFound` models the crash the
JS would incur if `sources.find` came back `undefined` (it cannot on this
call path, see `buildGraph_pending_found`). -/
inductive BuildFailure
  | resolveFail (e : ResolveFailure)
  | sourceNotFound (f : Str)
deriving DecidableEq, Repr

/-- The measure for the BFS loop. -/
def bfsMeasure (sources : List Source) (done : List Module)
    (pending : List Str) : Nat × Nat :=
  (((sourceNames sources).filter
      (fun n => ! ((done.map (fun d => d.source.filename) ++ pending).contains n))).length,
    pending.length)

theorem bfs_dec (sources : List Source) (done : List Module) (f : Str)
    (rest : List Str) (m : Module) (hmf : m.source.filename = f)
    (hreq : ∀ r ∈ m.requests, r.resolvedFileName ∈ sourceNames sources) :
    let seen := done.map (fun d => d.source.filename) ++ (f :: rest)
    let newFiles := (m.requests.map (fun r => r.resolvedFileName)).filter
      (fun x => ! seen.contains x)
    Prod.Lex (· < ·) (· < ·)
      (bfsMeasure sources (done ++ [m]) (rest ++ newFiles))
      (bfsMeasure sources done (f :: rest)) := by
  intro seen newFiles
  have hseen' : ∀ n : Str,
      ((done ++ [m]).map (fun d => d.source.filename) ++ (rest ++ newFiles)).contains n =
        (seen.contains n || newFiles.contains n) := by
    intro n
    simp only [seen, List.map_append, List.map_cons, List.map_nil, hmf, contains_eq]
    have hiff : n ∈ (done.map (fun d => d.source.filename) ++ [f]) ++ (rest ++ newFiles) ↔
        n ∈ done.map (fun d => d.source.filename) ++ (f :: rest) ∨ n ∈ newFiles := by
      simp only [List.mem_append, List.mem_cons, List.mem_singleton]
      tauto
    have hd : decide (n ∈ (done.map (fun d => d.source.filename) ++ [f]) ++ (rest ++ newFiles))
        = decide (n ∈ done.map (fun d => d.source.filename) ++ (f :: rest) ∨ n ∈ newFiles) :=
      decide_eq_decide.mpr hiff
    rw [hd]
    simp
  by_cases hnew : newFiles = []
  · have hx : ((sourceNames sources).filter
          (fun n => ! (((done ++ [m]).map (fun d => d.source.filename)
            ++ (rest ++ newFiles)).contains n))).length
        = ((sourceNames sources).filter
          (fun n => ! ((done.map (fun d => d.source.filename)
            ++ (f :: rest)).contains n))).length := by
      apply congrArg List.length
      apply List.filter_congr
      intro n _
      rw [hseen' n, hnew]
      simp [seen]
    simp only [bfsMeasure]
    rw [hx]
    exact Prod.Lex.right _ (by simp [hnew])
  · apply Prod.Lex.left
    obtain ⟨a, ha⟩ := List.exists_mem_of_ne_nil newFiles hnew
    have hamem := List.mem_filter.mp ha
    have haSrc : a ∈ sourceNames sources := by
      rcases List.mem_map.mp hamem.1 with ⟨r, hr, rfl⟩
      exact hreq r hr
    have haNotSeen : seen.contains a = false := by
      have h2 := hamem.2
      rwa [Bool.not_eq_true'] at h2
    refine length_filter_lt_of_witness _ _ _ ?himp a haSrc ?hpa ?hqa
    case himp =>
      intro n hq
      rw [Bool.not_eq_true'] at hq ⊢
      rw [hseen'] at hq
      exact (Bool.or_eq_false_iff.mp hq).1
    case hpa =>
      rw [Bool.not_eq_true']
      exact haNotSeen
    case hqa =>
      rw [Bool.not_eq_false', hseen', haNotSeen, contains_eq, decide_eq_true ha]
      rfl

/-- The BFS of `MyPacker.run` (`mypack.ts:232-239`): process each pending
filename into a module and enqueue its not-yet-enqueued resolved targets. -/
def buildGraph (env : Env) (sources : List Source) (entry : Str) :
    List Module → List Str → Except BuildFailure (List Module)
  | done, [] => .ok done
  | done, f :: rest =>
    match hfind : sources.find? (fun s => s.filename = f) with
    | none => .error (.sourceNotFound f)
    | some s =>
      match hpm : processModule env sources entry s with
      | .error e => .error (.resolveFail e)
      | .ok m =>
        let seen := done.map (fun d => d.source.filename) ++ (f :: rest)
        let newFiles := (m.requests.map (fun r => r.resolvedFileName)).filter
          (fun x => ! seen.contains x)
        buildGraph env sources entry (done ++ [m]) (rest ++ newFiles)
termination_by done pending => bfsMeasure sources done pending
decreasing_by
  have hsf : s.filename = f := by
    have := List.find?_some hfind
    simpa using this
  have hmf : m.source.filename = f := by
    rw [processModule_source hpm, hsf]
  exact bfs_dec sources done f rest m hmf (processModule_requests_mem hpm)

/-- Step equation of the BFS when the pending file is found and processes
cleanly. -/
theorem buildGraph_found (env : Env) (sources : List Source) (entry : Str)
    (done : List Module) (f : Str) (rest : List Str) (s : Source) (m : Module)
    (hfind : sources.find? (fun s0 => s0.filename = f) = some s)
    (hpm : processModule env sources entry s = .ok m) :
    buildGraph env sources entry done (f :: rest) =
      buildGraph env sources entry (done ++ [m])
        (rest ++ (m.requests.map (fun r => r.resolvedFileName)).filter
          (fun x => ! ((done.map (fun d => d.source.filename)
            ++ (f :: rest)).contains x))) := by
  rw [buildGraph.eq_2]
  split
  · next heq => rw [hfind] at heq; cases heq
  · next s' heq =>
    rw [hfind] at heq; cases heq
    split
    · next e hpe => rw [hpm] at hpe; cases hpe
    · next m' hpe => rw [hpm] at hpe; cases hpe; rfl

/-- Step equation of the BFS when the pending file is not among the
sources. -/
theorem buildGraph_notFound (env : Env) (sources : List Source) (entry : Str)
    (done : List Module) (f : Str) (rest : List Str)
    (hfind : sources.find? (fun s0 => s0.filename = f) = none) :
    buildGraph env sources entry done (f :: rest) =
      .error (.sourceNotFound f) := by
  rw [buildGraph.eq_2]
  split
  · rfl
  · next s' heq => rw [hfind] at heq; cases heq

/-- Step equation of the BFS when `processModule` fails to resolve a load
call. -/
theorem buildGraph_fail (env : Env) (sources : List Source) (entry : Str)
    (done : List Module) (f : Str) (rest : List Str) (s : Source)
    (e : ResolveFailure)
    (hfind : sources.find? (fun s0 => s0.filename = f) = some s)
    (hpm : processModule env sources entry s = .error e) :
    buildGraph env sources entry done (f :: rest) =
      .error (.resolveFail e) := by
  rw [buildGraph.eq_2]
  split
  · next heq => rw [hfind] at heq; cases heq
  · next s' heq =>
    rw [hfind] at heq; cases heq
    split
    · next e' hpe => rw [hpm] at hpe; cases hpe; rfl
    · next m' hpe => rw [hpm] at hpe; cases hpe

/-! ## Circular reference checking (`MyPacker.checkCircularReference`,
`mypack.ts:121-147`)

A depth-first walk with an explicit `loadings` stack; reaching a request
whose module is already on the stack throws `'circular reference'`, which
the wrapper catches.  The JS recursion terminates because the stack only
ever holds pairwise-distinct module names (a duplicate throws first), so
its depth is bounded by the number of modules; the model makes that bound
explicit as fuel (one unit per nesting level) and `chk_no_fuelOut` below
proves the bound is never hit. -/

/-- Outcome of the check: `ok` (no cycle), `circular` (the caught
`'circular reference'` throw), `lookupCrash` (the `TypeError` the JS would
raise when `modules.find` comes back `undefined` — rethrown out of `run`),
`fuelOut` (model artifact, proven unreachable for graphs built by the
BFS). -/
inductive ChkResult
  | ok
  | circular
  | lookupCrash
  | fuelOut
deriving DecidableEq, Repr

/-- The request loop of `load` (`mypack.ts:125-135`): `loadings` already
contains the names of the modules being loaded, innermost last (the
current module included); `fuel` bounds the remaining nesting depth. -/
def loadR (modules : List Module) : Nat → List Str → List ModuleRequest → ChkResult
  | _, _, [] => .ok
  | fuel, loadings, r :: rs =>
    match modules.find? (fun mm => mm.name = r.resolvedModuleName) with
    | none => .lookupCrash
    | some rm =>
      if loadings.contains rm.name then .circular
      else
        match fuel with
        | 0 => .fuelOut
        | fuel' + 1 =>
          match loadR modules fuel' (loadings ++ [rm.name]) rm.requests with
          | .ok => loadR modules (fuel' + 1) loadings rs
          | e => e
termination_by fuel _ reqs => (fuel, reqs.length)

/-- `MyPacker.checkCircularReference`: start `load` at `modules[0]` (the
entry); an empty module list would crash on `modules[0].requests`. -/
def checkCircularReference (modules : List Module) : ChkResult :=
  match modules with
  | [] => .lookupCrash
  | m0 :: _ => loadR modules modules.length [m0.name] m0.requests

theorem loadR_nil (modules : List Module) (fuel : Nat) (loadings : List Str) :
    loadR modules fuel loadings [] = .ok := by
  rw [loadR]

theorem loadR_cons_none (modules : List Module) (fuel : Nat)
    (loadings : List Str) (r : ModuleRequest) (rs : List ModuleRequest)
    (hfind : modules.find? (fun mm => mm.name = r.resolvedModuleName) = none) :
    loadR modules fuel loadings (r :: rs) = .lookupCrash := by
  rw [loadR.eq_2]
  rw [hfind]

theorem loadR_cons_circ (modules : List Module) (fuel : Nat)
    (loadings : List Str) (r : ModuleRequest) (rs : List ModuleRequest)
    (rm : Module)
    (hfind : modules.find? (fun mm => mm.name = r.resolvedModuleName) = some rm)
    (hmem : loadings.contains rm.name = true) :
    loadR modules fuel loadings (r :: rs) = .circular := by
  rw [loadR.eq_2, hfind]
  simp only [hmem, if_true]

theorem loadR_cons_zero (modules : List Module)
    (loadings : List Str) (r : ModuleRequest) (rs : List ModuleRequest)
    (rm : Module)
    (hfind : modules.find? (fun mm => mm.name = r.resolvedModuleName) = some rm)
    (hmem : loadings.contains rm.name = false) :
    loadR modules 0 loadings (r :: rs) = .fuelOut := by
  rw [loadR.eq_2, hfind]
  simp only [hmem, Bool.false_eq_true, if_false]

theorem loadR_cons_rec (modules : List Module) (fuel' : Nat)
    (loadings : List Str) (r : ModuleRequest) (rs : List ModuleRequest)
    (rm : Module)
    (hfind : modules.find? (fun mm => mm.name = r.resolvedModuleName) = some rm)
    (hmem : loadings.contains rm.name = false) :
    loadR modules (fuel' + 1) loadings (r :: rs) =
      match loadR modules fuel' (loadings ++ [rm.name]) rm.requests with
      | .ok => loadR modules (fuel' + 1) loadings rs
      | e => e := by
  rw [loadR.eq_2, hfind]
  simp only [hmem, Bool.false_eq_true, if_false]

/-! ## Emission (`mypack.ts:149-186`) -/

/-- `interface EmitHost`: the string builder, the accumulated generator
mappings (`none` when source maps are off), and the running line offset. -/
structure EmitHost where
  sb : Str
  gen : Option (List GenMapping)
  lineOffset : Int
deriving DecidableEq, Repr

/-- The runtime preamble (`mypack.ts:155-159`): module cache plus
recursive loader, invoked on the entry module's name; the `lib` flavour
assigns the result to `module.exports`. -/
def runtimeHeaderText (t : PackType) (entryName : Str) : Str :=
  match t with
  | .app =>
    strLit "((modules) => \x7b const mycache = \x7b\x7d;\n(function myrequire(modulename) \x7b if (!(modulename in mycache)) \x7b mycache[modulename] = \x7b\x7d; modules[modulename](mycache[modulename], myrequire); \x7d return mycache[modulename]; \x7d)('"
      ++ entryName ++ strLit "'); \x7d)(\x7b\n"
  | .lib =>
    strLit "module.exports = ((modules) => \x7b const mycache = \x7b\x7d;\nreturn (function myrequire(modulename) \x7b if (!(modulename in mycache)) \x7b mycache[modulename] = \x7b\x7d; modules[modulename](mycache[modulename], myrequire); \x7d return mycache[modulename]; \x7d)('"
      ++ entryName ++ strLit "'); \x7d)(\x7b\n"

/-- `MyPacker.emitRuntimePrefix` (`mypack.ts:149-161`): optional shebang
line (line offset +1), then the two-line preamble (line offset +2). -/
def emitRuntimeHead (opts : MyPackOptions) (entryName : Str) (host : EmitHost) : EmitHost :=
  let host :=
    if opts.shebang then
      { host with
          sb := host.sb ++ strLit "#!/usr/bin/env node\n",
          lineOffset := host.lineOffset + 1 }
    else host
  { host with
      sb := host.sb ++ runtimeHeaderText opts.type entryName,
      lineOffset := host.lineOffset + 2 }

/-- The object-literal entry emitted for one module (`mypack.ts:163`). -/
def moduleEntryText (m : Module) : Str :=
  strLit "'" ++ m.name ++ strLit "': (exports, myimport) => \x7b\n"
    ++ m.content ++ strLit "\x7d, "

/-- `content.split('\n').length - 1`. -/
def countNewlines (s : Str) : Nat := s.count '\n'

/-- Emission failure: `JSON.parse($module.source.mapContent)` threw — in
particular `mapContent` was `undefined` (no companion map file), in which
case `JSON.parse(undefined)` raises a `SyntaxError` that propagates out of
`run`. -/
inductive EmitError
  | mapParse
deriving DecidableEq, Repr

/-- `MyPacker.emitModule` (`mypack.ts:162-182`): append the module entry
(line offset +1); when a generator is present, parse the module's
companion map, take the first mapping's generated line as the local
anchor, and re-emit every mapping shifted to
`generatedLine - anchor + lineOffset + 1` with the column unchanged, then
advance the line offset by the newline count of the module content. -/
def emitModule (env : Env) (host : EmitHost) (m : Module) : Except EmitError EmitHost :=
  let host := { host with
    sb := host.sb ++ moduleEntryText m,
    lineOffset := host.lineOffset + 1 }
  match host.gen with
  | none => .ok host
  | some gms =>
    match m.source.mapContent with
    | none => .error .mapParse
    | some mc =>
      match env.parseMap mc with
      | none => .error .mapParse
      | some mappings =>
        let anchor : Int :=
          match mappings.head? with
          | some mp => mp.generatedLine
          | none => 0
        let newMs := mappings.map fun mp =>
          GenMapping.mk (pathResolveCore env.cwd [mp.src]) mp.originalLine
            mp.originalColumn (mp.generatedLine - anchor + host.lineOffset + 1)
            mp.generatedColumn
        .ok { host with
          gen := some (gms ++ newMs),
          lineOffset := host.lineOffset + (countNewlines m.content : Int) }

/-- Emit all modules in graph order, stopping at the first throw. -/
def emitModules (env : Env) : EmitHost → List Module → Except EmitError EmitHost
  | host, [] => .ok host
  | host, m :: ms =>
    match emitModule env host m with
    | .error e => .error e
    | .ok host' => emitModules env host' ms

/-- `MyPacker.emitRuntimePostfix` (`mypack.ts:183-186`). -/
def emitRuntimeFoot (host : EmitHost) : EmitHost :=
  { host with sb := host.sb ++ strLit "\x7d)\n" }

/-! ## Cleanup, result and the full run (`mypack.ts:188-297`) -/

/-- `MyPacker.cleanupMemoryFile` (`mypack.ts:188-196`): splice out of the
caller's file list every file that neither is some module's source nor
some module's companion map.  (The JS removes each such element by
`indexOf`+`splice`; the net effect on the list is this filter.) -/
def cleanupMemoryFile (modules : List Module) (files : List MFile) : List MFile :=
  files.filter fun f =>
    modules.any (fun m => m.source.filename = f.name)
      || modules.any (fun m => m.source.filename ++ strLit ".map" = f.name)

/-- The diagnostic logged with a failed run: missing entry
(`mypack.ts:227`), unresolved load call (`mypack.ts:95`), or circular
reference (`mypack.ts:142`). -/
inductive FailReason
  | invalidEntry
  | invalidModuleName (e : ResolveFailure)
  | circularReference
deriving DecidableEq, Repr

/-- An uncaught JS exception escaping `run` (the returned promise
rejects): the `TypeError` from an undefined lookup, or the `SyntaxError`
from `JSON.parse` on a missing companion map.  `chkFuel` is the model
artifact for the cycle checker's fuel, proven unreachable. -/
inductive JsError
  | lookupCrash
  | chkFuel
  | mapParse
deriving DecidableEq, Repr

/-- Everything observable about a completed (non-throwing) run: the
returned `MyPackResult`, the logged failure diagnostic (if any), the
`(path, content)` writes performed, the caller's file list after the
in-place cleanup, and the new packer state. -/
structure RunReturn where
  result : MyPackResult
  reason : Option FailReason
  writes : List (Str × Str)
  files : List MFile
  state : PackerState
deriving DecidableEq, Repr

inductive RunOutcome
  | ok (r : RunReturn)
  | thrown (e : JsError)
deriving DecidableEq, Repr

/-- The emission half of `MyPacker.run` (`mypack.ts:245-296`), reached
once the graph is built and acyclic: emit prefix, modules and postfix,
optionally minify, hash and compare with the previous digest, clean up
the caller's file list, store the stripped module list, write the output
file (and map file when enabled). -/
def finishAfterEmit (env : Env) (opts : MyPackOptions) (st : PackerState)
    (modules : List Module) : Except EmitError EmitHost → RunOutcome
  | .error _ => .thrown .mapParse
  | .ok host2 =>
    let host3 := emitRuntimeFoot host2
    let resultJs0 := host3.sb
    let resultMap0 : Option Str := host3.gen.map env.serializeMap
    let resultJs := if opts.minifyEnabled then env.minifyCode resultJs0 else resultJs0
    let resultMap := if opts.minifyEnabled then env.minifyMap resultJs0 resultMap0 else resultMap0
    let hash := env.digest resultJs
    let hasChange := decide (¬ st.lastHash = some hash)
    let files' := if opts.cleanupFiles.getD true
      then cleanupMemoryFile modules opts.files else opts.files
    let st' : PackerState :=
      ⟨some hash, some (modules.map (fun m => ⟨m.name, m.source.filename, m.hash⟩))⟩
    let writes := (opts.output, resultJs) ::
      (if opts.sourceMap then [(opts.output ++ strLit ".map", resultMap.getD [])] else [])
    .ok ⟨⟨true, some hasChange⟩, none, writes, files', st'⟩

/-- The emission half of `MyPacker.run` (`mypack.ts:245-296`), reached
once the graph is built and acyclic. -/
def emitAndFinish (env : Env) (opts : MyPackOptions) (st : PackerState)
    (modules : List Module) : RunOutcome :=
  finishAfterEmit env opts st modules
    (emitModules env
      (emitRuntimeHead opts
        (match modules.head? with | some m => m.name | none => [])
        ⟨[], if opts.sourceMap then some [] else none, 0⟩)
      modules)

/-- `MyPacker.run` (`mypack.ts:221-297`). -/
def run (env : Env) (opts : MyPackOptions) (st : PackerState) : RunOutcome :=
  if hasSource (getSources opts.files) opts.entry = false then
    .ok ⟨⟨false, none⟩, some .invalidEntry, [], opts.files, st⟩
  else
    match buildGraph env (getSources opts.files) opts.entry [] [opts.entry] with
    | .error (.resolveFail e) =>
      .ok ⟨⟨false, none⟩, some (.invalidModuleName e), [], opts.files, st⟩
    | .error (.sourceNotFound _) => .thrown .lookupCrash
    | .ok modules =>
      match checkCircularReference modules with
      | .circular => .ok ⟨⟨false, none⟩, some .circularReference, [], opts.files, st⟩
      | .lookupCrash => .thrown .lookupCrash
      | .fuelOut => .thrown .chkFuel
      | .ok => emitAndFinish env opts st modules

/-- Branch lemma: missing entry (`mypack.ts:226-229`). -/
theorem run_entry_missing (env : Env) (opts : MyPackOptions) (st : PackerState)
    (h : hasSource (getSources opts.files) opts.entry = false) :
    run env opts st = .ok ⟨⟨false, none⟩, some .invalidEntry, [], opts.files, st⟩ := by
  unfold run
  rw [h]
  rfl

/-- Branch lemma: a load call failed to resolve during the BFS
(`mypack.ts:236`). -/
theorem run_resolve_fail (env : Env) (opts : MyPackOptions) (st : PackerState)
    (e : ResolveFailure)
    (hentry : hasSource (getSources opts.files) opts.entry = true)
    (hbg : buildGraph env (getSources opts.files) opts.entry [] [opts.entry]
      = .error (.resolveFail e)) :
    run env opts st =
      .ok ⟨⟨false, none⟩, some (.invalidModuleName e), [], opts.files, st⟩ := by
  unfold run
  rw [hentry]
  simp only [Bool.true_eq_false, if_false]
  rw [hbg]

/-- Branch lemma: circular reference detected (`mypack.ts:241-243`). -/
theorem run_circular (env : Env) (opts : MyPackOptions) (st : PackerState)
    (modules : List Module)
    (hentry : hasSource (getSources opts.files) opts.entry = true)
    (hbg : buildGraph env (getSources opts.files) opts.entry [] [opts.entry]
      = .ok modules)
    (hchk : checkCircularReference modules = .circular) :
    run env opts st =
      .ok ⟨⟨false, none⟩, some .circularReference, [], opts.files, st⟩ := by
  unfold run
  rw [hentry]
  simp only [Bool.true_eq_false, if_false]
  rw [hbg]
  simp only [hchk]

/-- Branch lemma: clean graph, emission and finish (`mypack.ts:245-296`). -/
theorem run_success (env : Env) (opts : MyPackOptions) (st : PackerState)
    (modules : List Module)
    (hentry : hasSource (getSources opts.files) opts.entry = true)
    (hbg : buildGraph env (getSources opts.files) opts.entry [] [opts.entry]
      = .ok modules)
    (hchk : checkCircularReference modules = .ok) :
    run env opts st = emitAndFinish env opts st modules := by
  unfold run
  rw [hentry]
  simp only [Bool.true_eq_false, if_false]
  rw [hbg]
  simp only [hchk]

/-! ## Characterization of the load-call rewrite (claim C3)

`spanRewrite` re-renders a module content by walking it character by
character: unmatched characters are copied verbatim, and each regex match
is replaced by the import call for its request (the span's characters are
consumed and nothing else is touched).  The theorems below show the
slice-based rewrite of `mypack.ts:108-115` computes exactly this, and that
each matched span is literally `require("<raw>");` — `raw.length + 12`
characters. -/

/-- Reference rendering of the rewrite: copy characters outside matches,
substitute `myimport("<nm raw>");` for each matched span. -/
def spanRewrite (nm : Str → Str) : Str → Nat → Str
  | [], _ => []
  | _ :: cs, skip + 1 => spanRewrite nm cs skip
  | c :: cs, 0 =>
    match matchAt (c :: cs) with
    | some w => myimportText (nm w) ++ spanRewrite nm cs (w.length + 11)
    | none => c :: spanRewrite nm cs 0

theorem drop_of_drop_cons {l : Str} {n : Nat} {c : Char} {tl : Str}
    (h : l.drop n = c :: tl) : l.drop (n + 1) = tl := by
  have h2 : (l.drop n).drop 1 = l.drop (n + 1) := by rw [List.drop_drop]
  rw [h] at h2
  simpa using h2.symm

/-- A match's span is the literal `require("<w>");` text. -/
theorem matchAt_spec {cs w : Str} (h : matchAt cs = some w) :
    cs.take (w.length + 12) = requireText w := by
  unfold matchAt at h
  by_cases hp : (strLit "require(\x22").isPrefixOf cs = true
  · rw [if_pos hp] at h
    split at h
    · next hh =>
        by_cases hs : (strLit "\x22);").isPrefixOf
            ((cs.drop 9).drop ((cs.drop 9).takeWhile reqChar).length) = true
        · rw [if_pos hs] at h
          cases h
          set w := (cs.drop 9).takeWhile reqChar with hw
          have h9 : cs.take 9 = strLit "require(\x22" := by
            have hpre := List.isPrefixOf_iff_prefix.mp hp
            exact (List.prefix_iff_eq_take.mp hpre).symm
          have hwtake : (cs.drop 9).take w.length = w := by
            have hpre : w <+: cs.drop 9 := by
              rw [hw]; exact List.takeWhile_prefix reqChar
            exact (List.prefix_iff_eq_take.mp hpre).symm
          have h3 : ((cs.drop 9).drop w.length).take 3 = strLit "\x22);" := by
            have hpre := List.isPrefixOf_iff_prefix.mp hs
            exact (List.prefix_iff_eq_take.mp hpre).symm
          have hsplit : w.length + 12 = 9 + (w.length + 3) := by omega
          rw [hsplit, List.take_add, h9, List.take_add, hwtake, h3]
          simp [requireText]
        · rw [if_neg hs] at h; cases h
    · next hh => cases h
  · rw [if_neg hp] at h; cases h

theorem scanGo_skip (c : Char) (cs : Str) (i skip : Nat) :
    scanGo (c :: cs) i (skip + 1) = scanGo cs (i + 1) skip := by
  rw [scanGo]

theorem scanGo_match {c : Char} {cs w : Str} (i : Nat)
    (hm : matchAt (c :: cs) = some w) :
    scanGo (c :: cs) i 0 = (i, w) :: scanGo cs (i + 1) (w.length + 11) := by
  rw [scanGo, hm]

theorem scanGo_nomatch {c : Char} {cs : Str} (i : Nat)
    (hm : matchAt (c :: cs) = none) :
    scanGo (c :: cs) i 0 = scanGo cs (i + 1) 0 := by
  rw [scanGo, hm]

theorem spanRewrite_skip (nm : Str → Str) (c : Char) (cs : Str) (skip : Nat) :
    spanRewrite nm (c :: cs) (skip + 1) = spanRewrite nm cs skip := by
  rw [spanRewrite]

theorem spanRewrite_match (nm : Str → Str) {c : Char} {cs w : Str}
    (hm : matchAt (c :: cs) = some w) :
    spanRewrite nm (c :: cs) 0 =
      myimportText (nm w) ++ spanRewrite nm cs (w.length + 11) := by
  rw [spanRewrite, hm]

theorem spanRewrite_nomatch (nm : Str → Str) {c : Char} {cs : Str}
    (hm : matchAt (c :: cs) = none) :
    spanRewrite nm (c :: cs) 0 = c :: spanRewrite nm cs 0 := by
  rw [spanRewrite, hm]

theorem scanGo_ge : ∀ (cs : Str) (i k : Nat), ∀ p ∈ scanGo cs i k, i + k ≤ p.1 := by
  intro cs
  induction cs with
  | nil => intro i k p hp; simp [scanGo] at hp
  | cons c cs ih =>
    intro i k p hp
    match k with
    | skip + 1 =>
      rw [scanGo_skip] at hp
      have := ih (i + 1) skip p hp
      omega
    | 0 =>
      rcases hm : matchAt (c :: cs) with _ | w
      · rw [scanGo_nomatch i hm] at hp
        have := ih (i + 1) 0 p hp
        omega
      · rw [scanGo_match i hm] at hp
        rcases List.mem_cons.mp hp with rfl | hp'
        · omega
        · have := ih (i + 1) (w.length + 11) p hp'
          omega

theorem scanGo_matches : ∀ (cs cs₀ : Str) (i k : Nat), cs₀.drop i = cs →
    ∀ p ∈ scanGo cs i k, matchAt (cs₀.drop p.1) = some p.2 := by
  intro cs
  induction cs with
  | nil => intro cs₀ i k _ p hp; simp [scanGo] at hp
  | cons c cs ih =>
    intro cs₀ i k hdrop p hp
    match k with
    | skip + 1 =>
      rw [scanGo_skip] at hp
      exact ih cs₀ (i + 1) skip (drop_of_drop_cons hdrop) p hp
    | 0 =>
      rcases hm : matchAt (c :: cs) with _ | w
      · rw [scanGo_nomatch i hm] at hp
        exact ih cs₀ (i + 1) 0 (drop_of_drop_cons hdrop) p hp
      · rw [scanGo_match i hm] at hp
        rcases List.mem_cons.mp hp with rfl | hp'
        · rw [hdrop]; exact hm
        · exact ih cs₀ (i + 1) (w.length + 11) (drop_of_drop_cons hdrop) p hp'

theorem rewriteGo_peel (cs₀ : Str) (i : Nat) (c : Char) (tl : Str)
    (hdrop : cs₀.drop i = c :: tl) :
    ∀ reqs : List ModuleRequest, (∀ r ∈ reqs, i + 1 ≤ r.index) →
      rewriteGo cs₀ i reqs = c :: rewriteGo cs₀ (i + 1) reqs := by
  intro reqs hge
  match reqs with
  | [] =>
    show jsSliceFrom cs₀ i = c :: jsSliceFrom cs₀ (i + 1)
    unfold jsSliceFrom
    rw [hdrop, drop_of_drop_cons hdrop]
  | r :: rs =>
    have hr : i + 1 ≤ r.index := hge r (List.mem_cons_self r rs)
    have hslice : jsSlice cs₀ i r.index = c :: jsSlice cs₀ (i + 1) r.index := by
      unfold jsSlice
      rw [hdrop, drop_of_drop_cons hdrop]
      have harith : r.index - i = (r.index - (i + 1)) + 1 := by omega
      rw [harith, List.take_succ_cons]
    simp only [rewriteGo, hslice, List.cons_append]

theorem rewriteGo_eq_spanRewrite (nmF nm : Str → Str) :
    ∀ (cs cs₀ : Str) (i k : Nat), cs₀.drop i = cs →
      rewriteGo cs₀ (i + k)
        ((scanGo cs i k).map (fun p => ⟨p.1, p.2, nmF p.2, nm p.2⟩)) =
      spanRewrite nm cs k := by
  intro cs
  induction cs with
  | nil =>
    intro cs₀ i k hdrop
    rw [scanGo, spanRewrite]
    show jsSliceFrom cs₀ (i + k) = []
    unfold jsSliceFrom
    rw [← List.drop_drop, hdrop]
    simp
  | cons c cs ih =>
    intro cs₀ i k hdrop
    match k with
    | skip + 1 =>
      rw [scanGo_skip, spanRewrite_skip]
      have harith : i + (skip + 1) = (i + 1) + skip := by omega
      rw [harith]
      exact ih cs₀ (i + 1) skip (drop_of_drop_cons hdrop)
    | 0 =>
      rcases hm : matchAt (c :: cs) with _ | w
      · rw [scanGo_nomatch i hm, spanRewrite_nomatch nm hm]
        have hge : ∀ r ∈ (scanGo cs (i + 1) 0).map
            (fun p => (⟨p.1, p.2, nmF p.2, nm p.2⟩ : ModuleRequest)),
            i + 1 ≤ r.index := by
          intro r hr
          rcases List.mem_map.mp hr with ⟨p, hp, rfl⟩
          simpa using scanGo_ge cs (i + 1) 0 p hp
        rw [Nat.add_zero]
        rw [rewriteGo_peel cs₀ i c cs hdrop _ hge]
        have hih := ih cs₀ (i + 1) 0 (drop_of_drop_cons hdrop)
        rw [Nat.add_zero] at hih
        rw [hih]
      · rw [scanGo_match i hm, spanRewrite_match nm hm, List.map_cons]
        rw [Nat.add_zero]
        have hstep : rewriteGo cs₀ i
            ((⟨i, w, nmF w, nm w⟩ : ModuleRequest) ::
              (scanGo cs (i + 1) (w.length + 11)).map
                (fun p => ⟨p.1, p.2, nmF p.2, nm p.2⟩)) =
            jsSlice cs₀ i i ++ myimportText (nm w)
              ++ rewriteGo cs₀ (i + w.length + 12)
                ((scanGo cs (i + 1) (w.length + 11)).map
                  (fun p => ⟨p.1, p.2, nmF p.2, nm p.2⟩)) := by
          simp only [rewriteGo]
        rw [hstep]
        have hnil : jsSlice cs₀ i i = [] := by
          unfold jsSlice
          simp
        have hih := ih cs₀ (i + 1) (w.length + 11) (drop_of_drop_cons hdrop)
        have harith : (i + 1) + (w.length + 11) = i + w.length + 12 := by omega
        rw [harith] at hih
        rw [hnil, hih]
        simp
/-- The resolved target of one raw request text, as a total function (on
the success path of `processModule` the inner resolution never fails, so
the default is never taken). -/
def resolveRaw (env : Env) (sources : List Source) (dir raw : Str) : Str :=
  (resolveRequest sources (pathResolveCore env.cwd [dir, raw])).getD []

theorem resolveRequests_ok_eq {env : Env} {sources : List Source}
    {entry : Str} {source : Source} {l : List (Nat × Str)}
    {rs : List ModuleRequest}
    (h : resolveRequests env sources entry source l = .ok rs) :
    rs = l.map (fun p =>
      ⟨p.1, p.2, resolveRaw env sources (pathDirname source.filename) p.2,
        mkRequiredName env.cwd entry
          (resolveRaw env sources (pathDirname source.filename) p.2)⟩) := by
  induction l generalizing rs with
  | nil =>
    simp only [resolveRequests] at h
    cases h; rfl
  | cons p rest ih =>
    obtain ⟨i, raw⟩ := p
    simp only [resolveRequests] at h
    cases hres : resolveRequest sources
        (pathResolveCore env.cwd [pathDirname source.filename, raw]) with
    | none => rw [hres] at h; cases h
    | some rf =>
      rw [hres] at h
      cases hrec : resolveRequests env sources entry source rest with
      | error e => rw [hrec] at h; cases h
      | ok rs' =>
        rw [hrec] at h
        cases h
        rw [List.map_cons, ← ih hrec]
        have hrr : resolveRaw env sources (pathDirname source.filename) raw = rf := by
          unfold resolveRaw
          rw [hres]
          rfl
        rw [hrr]

/-- What `processModule` produces on success: the requests are exactly the
scanner's matches decorated with their resolutions, the content is the
slice rewrite of those requests, the name is `mkName`, the source is kept
and the hash is the digest of the rewritten content. -/
theorem processModule_ok_parts {env : Env} {sources : List Source}
    {entry : Str} {source : Source} {m : Module}
    (h : processModule env sources entry source = .ok m) :
    m.requests = (scanRequires source.jsContent).map (fun p =>
      ⟨p.1, p.2, resolveRaw env sources (pathDirname source.filename) p.2,
        mkRequiredName env.cwd entry
          (resolveRaw env sources (pathDirname source.filename) p.2)⟩)
    ∧ m.content = rewriteContent source.jsContent m.requests
    ∧ m.name = mkName env.cwd entry source.filename
    ∧ m.hash = env.digest m.content := by
  unfold processModule at h
  cases hres : resolveRequests env sources entry source
      (scanRequires source.jsContent) with
  | error e => rw [hres] at h; cases h
  | ok requests =>
    rw [hres] at h
    cases h
    refine ⟨resolveRequests_ok_eq hres, rfl, rfl, rfl⟩

/-! ## Graph and checker invariants -/

/-- The BFS only ever appends to the processed prefix. -/
theorem buildGraph_prefix (env : Env) (sources : List Source) (entry : Str) :
    ∀ (done : List Module) (pending : List Str),
      ∀ mods, buildGraph env sources entry done pending = .ok mods →
        done <+: mods := by
  intro done pending
  induction done, pending using buildGraph.induct env sources entry with
  | case1 done =>
    intro mods h
    rw [buildGraph.eq_1] at h
    cases h
    exact List.prefix_refl _
  | case2 done f rest hfind =>
    intro mods h
    rw [buildGraph_notFound _ _ _ _ _ _ hfind] at h
    cases h
  | case3 done f rest s hfind e hpm =>
    intro mods h
    rw [buildGraph_fail _ _ _ _ _ _ _ _ hfind hpm] at h
    cases h
  | case4 done f rest s hfind m hpm seen newFiles ih =>
    intro mods h
    rw [buildGraph_found _ _ _ _ _ _ _ _ hfind hpm] at h
    have htail := ih mods h
    exact (List.prefix_append done [m]).trans htail

/-- A graph built from the entry starts with the module processed from the
entry filename. -/
theorem buildGraph_entry_head (env : Env) (sources : List Source)
    (entry : Str) (mods : List Module)
    (h : buildGraph env sources entry [] [entry] = .ok mods) :
    ∃ m tail, mods = m :: tail ∧ m.source.filename = entry := by
  cases hfind : sources.find? (fun s0 => s0.filename = entry) with
  | none =>
    rw [buildGraph_notFound _ _ _ _ _ _ hfind] at h
    cases h
  | some s =>
    cases hpm : processModule env sources entry s with
    | error e =>
      rw [buildGraph_fail _ _ _ _ _ _ _ _ hfind hpm] at h
      cases h
    | ok m =>
      rw [buildGraph_found _ _ _ _ _ _ _ _ hfind hpm] at h
      have hpre : [m] <+: mods := buildGraph_prefix env sources entry _ _ mods h
      obtain ⟨tail, htail⟩ := hpre
      refine ⟨m, tail, htail.symm, ?_⟩
      rw [processModule_source hpm]
      simpa using List.find?_some hfind

theorem nodup_subset_length {l l' : List Str} (hn : l.Nodup)
    (hs : ∀ a ∈ l, a ∈ l') : l.length ≤ l'.length := by
  classical
  calc l.length = l.toFinset.card := (List.toFinset_card_of_nodup hn).symm
    _ ≤ l'.toFinset.card := Finset.card_le_card (fun a ha => by
        simp only [List.mem_toFinset] at ha ⊢
        exact hs a ha)
    _ ≤ l'.length := l'.toFinset_card_le

/-- The checker's fuel (one unit per nesting level, `modules.length` in
total) is never exhausted: the loading stack holds pairwise distinct
module names, so its depth is bounded by the module count. -/
theorem loadR_no_fuel (modules : List Module) :
    ∀ (fuel : Nat) (loadings : List Str) (reqs : List ModuleRequest),
      loadings.Nodup →
      (∀ n ∈ loadings, n ∈ modules.map (fun m => m.name)) →
      modules.length + 1 ≤ fuel + loadings.length →
      loadR modules fuel loadings reqs ≠ .fuelOut := by
  intro fuel loadings reqs
  induction fuel, loadings, reqs using loadR.induct modules with
  | case1 fuel loadings =>
    intro _ _ _
    rw [loadR_nil]
    intro h; cases h
  | case2 fuel loadings r rs hfind =>
    intro _ _ _
    rw [loadR_cons_none _ _ _ _ _ hfind]
    intro h; cases h
  | case3 fuel loadings r rs rm hfind hmem =>
    intro _ _ _
    rw [loadR_cons_circ _ _ _ _ _ _ hfind hmem]
    intro h; cases h
  | case4 loadings r rs rm hfind hmem =>
    intro hnd hsub hbound
    exfalso
    have hlen : loadings.length ≤ modules.length := by
      have := nodup_subset_length hnd hsub
      simpa using this
    omega
  | case5 loadings r rs rm hfind hmem fuel' hinner ih1 ih2 =>
    intro hnd hsub hbound
    have hmem' : loadings.contains rm.name = false := by
      rwa [Bool.not_eq_true] at hmem
    rw [loadR_cons_rec _ _ _ _ _ _ hfind hmem', hinner]
    exact ih2 hnd hsub hbound
  | case6 loadings r rs rm hfind hmem fuel' hinner ih1 =>
    intro hnd hsub hbound
    have hmem' : loadings.contains rm.name = false := by
      rwa [Bool.not_eq_true] at hmem
    rw [loadR_cons_rec _ _ _ _ _ _ hfind hmem']
    have hnotin : rm.name ∉ loadings := by
      have h2 := hmem'
      rw [contains_eq, decide_eq_false_iff_not] at h2
      exact h2
    have hnd' : (loadings ++ [rm.name]).Nodup := by
      simp [List.nodup_append, hnd, hnotin]
    have hsub' : ∀ n ∈ loadings ++ [rm.name], n ∈ modules.map (fun m => m.name) := by
      intro n hn
      rcases List.mem_append.mp hn with hn | hn
      · exact hsub n hn
      · rcases List.mem_singleton.mp hn with rfl
        exact List.mem_map_of_mem _ (List.mem_of_find?_eq_some hfind)
    have hbound' : modules.length + 1 ≤ fuel' + (loadings ++ [rm.name]).length := by
      rw [List.length_append, List.length_singleton]
      omega
    have hni := ih1 hnd' hsub' hbound'
    cases hin : loadR modules fuel' (loadings ++ [rm.name]) rm.requests with
    | ok => exact absurd hin hinner
    | circular => intro h; cases h
    | lookupCrash => intro h; cases h
    | fuelOut => exact absurd hin hni

/-- `checkCircularReference` never runs out of fuel: the model's fuel is
an artifact that real executions cannot hit. -/
theorem chk_no_fuelOut (modules : List Module) :
    checkCircularReference modules ≠ .fuelOut := by
  cases modules with
  | nil => intro h; cases h
  | cons m0 tl =>
    show loadR (m0 :: tl) (m0 :: tl).length [m0.name] m0.requests ≠ _
    apply loadR_no_fuel
    · exact List.nodup_singleton _
    · intro n hn
      rcases List.mem_singleton.mp hn with rfl
      exact List.mem_map_of_mem _ (List.mem_cons_self m0 tl)
    · simp

/-! ## Executable observers on run outcomes -/

/-- `success` of the returned result (`none` when the run threw). -/
def outcomeSuccess : RunOutcome → Option Bool
  | .ok r => some r.result.success
  | .thrown _ => none

/-- `hasChange` of the returned result (`none` when the run threw). -/
def outcomeHasChange : RunOutcome → Option (Option Bool)
  | .ok r => some r.result.hasChange
  | .thrown _ => none

/-- The files written by the run (`none` when the run threw). -/
def outcomeWrites : RunOutcome → Option (List (Str × Str))
  | .ok r => some r.writes
  | .thrown _ => none

/-! ## Concrete scenarios

A fixed environment for the executable scenarios: root working directory
and identity stand-ins for the opaque digest/minifier/serializer
collaborators (nothing beyond their determinism is ever used). -/

def env0 : Env := ⟨strLit "/", fun s => s, fun s => s, fun _ m => m, fun _ => none, fun _ => []⟩

/-- Scenario A (spec scenario of C2): entry `/e.js` requiring `./a.js`. -/
def filesA : List MFile :=
  [⟨strLit "/e.js", strLit "var x = require(\x22./a.js\x22); x();"⟩,
   ⟨strLit "/a.js", strLit "module.exports = () => 1;"⟩]

def optsA : MyPackOptions :=
  ⟨.app, strLit "/e.js", filesA, false, strLit "/out.js", false, false, false, none⟩

def srcAe : Source :=
  ⟨strLit "/e.js", strLit "var x = require(\x22./a.js\x22); x();", none⟩

def modAe : Module :=
  ⟨strLit "e", srcAe, [⟨8, strLit "./a.js", strLit "/a.js", strLit "a"⟩],
    strLit "var x = myimport(\x22a\x22); x();",
    strLit "var x = myimport(\x22a\x22); x();"⟩

def srcAa : Source :=
  ⟨strLit "/a.js", strLit "module.exports = () => 1;", none⟩

def modAa : Module :=
  ⟨strLit "a", srcAa, [], strLit "module.exports = () => 1;",
    strLit "module.exports = () => 1;"⟩

theorem graphA : buildGraph env0 (getSources filesA) (strLit "/e.js") []
    [strLit "/e.js"] = .ok [modAe, modAa] := by
  have h1 : buildGraph env0 (getSources filesA) (strLit "/e.js") [] [strLit "/e.js"]
      = buildGraph env0 (getSources filesA) (strLit "/e.js") [modAe] [strLit "/a.js"] :=
    buildGraph_found _ _ _ _ _ _ srcAe modAe rfl rfl
  have h2 : buildGraph env0 (getSources filesA) (strLit "/e.js") [modAe] [strLit "/a.js"]
      = buildGraph env0 (getSources filesA) (strLit "/e.js") [modAe, modAa] [] :=
    buildGraph_found _ _ _ _ _ _ srcAa modAa rfl rfl
  exact h1.trans (h2.trans (buildGraph.eq_1 env0 (getSources filesA) (strLit "/e.js") [modAe, modAa]))

theorem chkA : checkCircularReference [modAe, modAa] = .ok := by
  show loadR [modAe, modAa] 2 [strLit "e"] modAe.requests = .ok
  have hstep : loadR [modAe, modAa] 2 [strLit "e"] modAe.requests =
      match loadR [modAe, modAa] 1 [strLit "e", strLit "a"] modAa.requests with
      | .ok => loadR [modAe, modAa] 2 [strLit "e"] []
      | e => e :=
    loadR_cons_rec _ _ _ _ _ modAa rfl rfl
  have hin : loadR [modAe, modAa] 1 [strLit "e", strLit "a"] modAa.requests = .ok :=
    loadR_nil _ _ _
  rw [hstep, hin]
  show loadR [modAe, modAa] 2 [strLit "e"] [] = .ok
  exact loadR_nil _ _ _

theorem runA : run env0 optsA initialState
    = emitAndFinish env0 optsA initialState [modAe, modAa] :=
  run_success env0 optsA initialState [modAe, modAa] rfl graphA chkA

/-- Scenario B (spec scenario of C1): entry requiring the directory module
`./lib`, backed only by `/lib/index.js`. -/
def filesB : List MFile :=
  [⟨strLit "/e.js", strLit "require(\x22./lib\x22);"⟩,
   ⟨strLit "/lib/index.js", strLit "1;"⟩]

def srcBe : Source := ⟨strLit "/e.js", strLit "require(\x22./lib\x22);", none⟩

def modBe : Module :=
  ⟨strLit "e", srcBe, [⟨0, strLit "./lib", strLit "/lib/index.js", strLit "lib/"⟩],
    strLit "myimport(\x22lib/\x22);", strLit "myimport(\x22lib/\x22);"⟩

def srcBlib : Source := ⟨strLit "/lib/index.js", strLit "1;", none⟩

def modBlib : Module := ⟨strLit "lib/", srcBlib, [], strLit "1;", strLit "1;"⟩

theorem graphB : buildGraph env0 (getSources filesB) (strLit "/e.js") []
    [strLit "/e.js"] = .ok [modBe, modBlib] := by
  have h1 : buildGraph env0 (getSources filesB) (strLit "/e.js") [] [strLit "/e.js"]
      = buildGraph env0 (getSources filesB) (strLit "/e.js") [modBe] [strLit "/lib/index.js"] :=
    buildGraph_found _ _ _ _ _ _ srcBe modBe rfl rfl
  have h2 : buildGraph env0 (getSources filesB) (strLit "/e.js") [modBe] [strLit "/lib/index.js"]
      = buildGraph env0 (getSources filesB) (strLit "/e.js") [modBe, modBlib] [] :=
    buildGraph_found _ _ _ _ _ _ srcBlib modBlib rfl rfl
  exact h1.trans (h2.trans (buildGraph.eq_1 env0 (getSources filesB) (strLit "/e.js") [modBe, modBlib]))

/-- Scenario C (spec scenario of C4): entry requiring `./missing.js` with
no matching source. -/
def filesC : List MFile := [⟨strLit "/e.js", strLit "require(\x22./missing.js\x22);"⟩]

def optsC : MyPackOptions :=
  ⟨.app, strLit "/e.js", filesC, false, strLit "/out.js", false, false, false, none⟩

theorem graphC : buildGraph env0 (getSources filesC) (strLit "/e.js") []
    [strLit "/e.js"]
    = .error (.resolveFail ⟨strLit "/e.js", strLit "./missing.js", 0⟩) :=
  buildGraph_fail _ _ _ _ _ _
    ⟨strLit "/e.js", strLit "require(\x22./missing.js\x22);", none⟩ _ rfl rfl

theorem runC : run env0 optsC initialState =
    .ok ⟨⟨false, none⟩,
      some (.invalidModuleName ⟨strLit "/e.js", strLit "./missing.js", 0⟩),
      [], filesC, initialState⟩ :=
  run_resolve_fail env0 optsC initialState _ rfl graphC

/-- Scenario D (spec scenario of C5): modules `/a.js` and `/b.js`
requiring each other. -/
def filesD : List MFile :=
  [⟨strLit "/a.js", strLit "require(\x22./b.js\x22);"⟩,
   ⟨strLit "/b.js", strLit "require(\x22./a.js\x22);"⟩]

def optsD : MyPackOptions :=
  ⟨.app, strLit "/a.js", filesD, false, strLit "/out.js", false, false, false, none⟩

def srcDa : Source := ⟨strLit "/a.js", strLit "require(\x22./b.js\x22);", none⟩

def modDa : Module :=
  ⟨strLit "a", srcDa, [⟨0, strLit "./b.js", strLit "/b.js", strLit "b"⟩],
    strLit "myimport(\x22b\x22);", strLit "myimport(\x22b\x22);"⟩

def srcDb : Source := ⟨strLit "/b.js", strLit "require(\x22./a.js\x22);", none⟩

def modDb : Module :=
  ⟨strLit "b", srcDb, [⟨0, strLit "./a.js", strLit "/a.js", strLit "a"⟩],
    strLit "myimport(\x22a\x22);", strLit "myimport(\x22a\x22);"⟩

theorem graphD : buildGraph env0 (getSources filesD) (strLit "/a.js") []
    [strLit "/a.js"] = .ok [modDa, modDb] := by
  have h1 : buildGraph env0 (getSources filesD) (strLit "/a.js") [] [strLit "/a.js"]
      = buildGraph env0 (getSources filesD) (strLit "/a.js") [modDa] [strLit "/b.js"] :=
    buildGraph_found _ _ _ _ _ _ srcDa modDa rfl rfl
  have h2 : buildGraph env0 (getSources filesD) (strLit "/a.js") [modDa] [strLit "/b.js"]
      = buildGraph env0 (getSources filesD) (strLit "/a.js") [modDa, modDb] [] :=
    buildGraph_found _ _ _ _ _ _ srcDb modDb rfl rfl
  exact h1.trans (h2.trans (buildGraph.eq_1 env0 (getSources filesD) (strLit "/a.js") [modDa, modDb]))

theorem chkD : checkCircularReference [modDa, modDb] = .circular := by
  show loadR [modDa, modDb] 2 [strLit "a"] modDa.requests = .circular
  have hstep : loadR [modDa, modDb] 2 [strLit "a"] modDa.requests =
      match loadR [modDa, modDb] 1 [strLit "a", strLit "b"] modDb.requests with
      | .ok => loadR [modDa, modDb] 2 [strLit "a"] []
      | e => e :=
    loadR_cons_rec _ _ _ _ _ modDb rfl rfl
  have hin : loadR [modDa, modDb] 1 [strLit "a", strLit "b"] modDb.requests
      = .circular :=
    loadR_cons_circ _ _ _ _ _ modDa rfl rfl
  rw [hstep, hin]

theorem runD : run env0 optsD initialState =
    .ok ⟨⟨false, none⟩, some .circularReference, [], filesD, initialState⟩ :=
  run_circular env0 optsD initialState [modDa, modDb] rfl graphD chkD

/-- Scenario E (claim C9): the entry requires `./a.js` twice, so `/a.js`
is enqueued twice and the graph holds two modules named `a`. -/
def filesE : List MFile :=
  [⟨strLit "/e.js", strLit "require(\x22./a.js\x22);require(\x22./a.js\x22);"⟩,
   ⟨strLit "/a.js", strLit "1;"⟩]

def optsE : MyPackOptions :=
  ⟨.app, strLit "/e.js", filesE, false, strLit "/out.js", false, false, false, none⟩

def srcEe : Source :=
  ⟨strLit "/e.js", strLit "require(\x22./a.js\x22);require(\x22./a.js\x22);", none⟩

def modEe : Module :=
  ⟨strLit "e", srcEe,
    [⟨0, strLit "./a.js", strLit "/a.js", strLit "a"⟩,
     ⟨18, strLit "./a.js", strLit "/a.js", strLit "a"⟩],
    strLit "myimport(\x22a\x22);myimport(\x22a\x22);",
    strLit "myimport(\x22a\x22);myimport(\x22a\x22);"⟩

def srcEa : Source := ⟨strLit "/a.js", strLit "1;", none⟩

def modEa : Module := ⟨strLit "a", srcEa, [], strLit "1;", strLit "1;"⟩

theorem graphE : buildGraph env0 (getSources filesE) (strLit "/e.js") []
    [strLit "/e.js"] = .ok [modEe, modEa, modEa] := by
  have h1 : buildGraph env0 (getSources filesE) (strLit "/e.js") [] [strLit "/e.js"]
      = buildGraph env0 (getSources filesE) (strLit "/e.js") [modEe]
        [strLit "/a.js", strLit "/a.js"] :=
    buildGraph_found _ _ _ _ _ _ srcEe modEe rfl rfl
  have h2 : buildGraph env0 (getSources filesE) (strLit "/e.js") [modEe]
        [strLit "/a.js", strLit "/a.js"]
      = buildGraph env0 (getSources filesE) (strLit "/e.js") [modEe, modEa]
        [strLit "/a.js"] :=
    buildGraph_found _ _ _ _ _ _ srcEa modEa rfl rfl
  have h3 : buildGraph env0 (getSources filesE) (strLit "/e.js") [modEe, modEa]
        [strLit "/a.js"]
      = buildGraph env0 (getSources filesE) (strLit "/e.js") [modEe, modEa, modEa] [] :=
    buildGraph_found _ _ _ _ _ _ srcEa modEa rfl rfl
  exact h1.trans (h2.trans (h3.trans
    (buildGraph.eq_1 env0 (getSources filesE) (strLit "/e.js") [modEe, modEa, modEa])))

theorem chkE : checkCircularReference [modEe, modEa, modEa] = .ok := by
  show loadR [modEe, modEa, modEa] 3 [strLit "e"] modEe.requests = .ok
  have hinner : loadR [modEe, modEa, modEa] 2 [strLit "e", strLit "a"] modEa.requests
      = .ok := loadR_nil _ _ _
  have hstep1 : loadR [modEe, modEa, modEa] 3 [strLit "e"] modEe.requests =
      match loadR [modEe, modEa, modEa] 2 [strLit "e", strLit "a"] modEa.requests with
      | .ok => loadR [modEe, modEa, modEa] 3 [strLit "e"]
          [⟨18, strLit "./a.js", strLit "/a.js", strLit "a"⟩]
      | e => e :=
    loadR_cons_rec _ _ _ _ _ modEa rfl rfl
  have hstep2 : loadR [modEe, modEa, modEa] 3 [strLit "e"]
        [⟨18, strLit "./a.js", strLit "/a.js", strLit "a"⟩] =
      match loadR [modEe, modEa, modEa] 2 [strLit "e", strLit "a"] modEa.requests with
      | .ok => loadR [modEe, modEa, modEa] 3 [strLit "e"] []
      | e => e :=
    loadR_cons_rec _ _ _ _ _ modEa rfl rfl
  rw [hstep1, hinner]
  show loadR [modEe, modEa, modEa] 3 [strLit "e"]
    [⟨18, strLit "./a.js", strLit "/a.js", strLit "a"⟩] = .ok
  rw [hstep2, hinner]
  show loadR [modEe, modEa, modEa] 3 [strLit "e"] [] = .ok
  exact loadR_nil _ _ _

theorem runE : run env0 optsE initialState
    = emitAndFinish env0 optsE initialState [modEe, modEa, modEa] :=
  run_success env0 optsE initialState [modEe, modEa, modEa] rfl graphE chkE

/-- Scenario F (claim C8): source maps enabled, but the lone source has no
companion map file. -/
def filesF : List MFile := [⟨strLit "/e.js", strLit "1;"⟩]

def optsF : MyPackOptions :=
  ⟨.app, strLit "/e.js", filesF, true, strLit "/out.js", false, false, false, none⟩

def srcFe : Source := ⟨strLit "/e.js", strLit "1;", none⟩

def modFe : Module := ⟨strLit "e", srcFe, [], strLit "1;", strLit "1;"⟩

theorem graphF : buildGraph env0 (getSources filesF) (strLit "/e.js") []
    [strLit "/e.js"] = .ok [modFe] := by
  have h1 : buildGraph env0 (getSources filesF) (strLit "/e.js") [] [strLit "/e.js"]
      = buildGraph env0 (getSources filesF) (strLit "/e.js") [modFe] [] :=
    buildGraph_found _ _ _ _ _ _ srcFe modFe rfl rfl
  exact h1.trans (buildGraph.eq_1 env0 (getSources filesF) (strLit "/e.js") [modFe])

theorem chkF : checkCircularReference [modFe] = .ok := by
  show loadR [modFe] 1 [strLit "e"] modFe.requests = .ok
  exact loadR_nil _ _ _

theorem runF : run env0 optsF initialState
    = emitAndFinish env0 optsF initialState [modFe] :=
  run_success env0 optsF initialState [modFe] rfl graphF chkF

/-- Scenario H: the entry filename is not among the files at all. -/
def filesH : List MFile := [⟨strLit "/x.js", strLit "1;"⟩]

def optsH : MyPackOptions :=
  ⟨.app, strLit "/e.js", filesH, false, strLit "/out.js", false, false, false, none⟩

theorem runH : run env0 optsH initialState =
    .ok ⟨⟨false, none⟩, some .invalidEntry, [], filesH, initialState⟩ :=
  run_entry_missing env0 optsH initialState rfl

/-! ## Helper lemmas for the run-level claims -/

theorem emitAndFinish_ok_success {env : Env} {opts : MyPackOptions}
    {st : PackerState} {modules : List Module} {r : RunReturn}
    (h : emitAndFinish env opts st modules = .ok r) : r.result.success = true := by
  unfold emitAndFinish at h
  revert h
  generalize emitModules env
      (emitRuntimeHead opts
        (match modules.head? with | some m => m.name | none => [])
        ⟨[], if opts.sourceMap then some [] else none, 0⟩)
      modules = res
  intro h
  cases res with
  | error e => cases h
  | ok host2 => cases h; rfl

/-- Every failed (but returning) run leaves the observable world alone:
`hasChange` absent, nothing written, the caller's file list untouched and
the packer state untouched. -/
theorem run_failure_shape {env : Env} {opts : MyPackOptions}
    {st : PackerState} {r : RunReturn}
    (h : run env opts st = .ok r) (hs : r.result.success = false) :
    r.result.hasChange = none ∧ r.writes = [] ∧ r.files = opts.files
      ∧ r.state = st := by
  unfold run at h
  split at h
  · cases h; exact ⟨rfl, rfl, rfl, rfl⟩
  · split at h
    · cases h; exact ⟨rfl, rfl, rfl, rfl⟩
    · cases h
    · split at h
      · cases h; exact ⟨rfl, rfl, rfl, rfl⟩
      · cases h
      · cases h
      · have htrue := emitAndFinish_ok_success h
        rw [htrue] at hs
        cases hs

/-! ## The claims -/

/-- Strip `suf` off the end of `s` when it is there. -/
def stripSuffix (s suf : Str) : Str :=
  if suf.isSuffixOf s then s.take (s.length - suf.length) else s

/-- The amended module-naming rule (claim C1): the relative path with the
script extension stripped when present, then a trailing five-character
`index` SUFFIX stripped when present — regardless of path-component
boundaries, so `lib/index` becomes `lib/` (trailing separator kept) and a
longer component such as `appindex` is truncated to `app` — and an empty
result mapped to the single-dot sentinel. -/
def mkNameSpec (cwd entry filename : Str) : Str :=
  let m := stripSuffix (pathRelative cwd (pathDirname entry) filename) (strLit ".js")
  let m := stripSuffix m (strLit "index")
  if m.length = 0 then strLit "." else m

/-- C1, counterexample: with entry `/e.js` requiring the directory module
`./lib` backed by `/lib/index.js` alone, the graph builder names that
module `lib/` — with a trailing separator — not `lib` as the claim states:
`mypack.ts:77` slices five characters off a trailing `index` regardless of
path-component boundaries. -/
theorem mypack_C1_cex :
    buildGraph env0 (getSources filesB) (strLit "/e.js") [] [strLit "/e.js"]
      = .ok [modBe, modBlib]
    ∧ modBlib.name = strLit "lib/"
    ∧ ¬ modBlib.name = strLit "lib" :=
  ⟨graphB, rfl, by decide⟩

/-- C1 (amended): for every Source processed by the graph builder, the
module name is the path relative to the entry's directory with the script
extension stripped, then a trailing five-character `index` suffix stripped
(which may leave a trailing separator or truncate a longer component), an
empty result mapped to `.`; the `./lib` scenario therefore yields `lib/`. -/
theorem mypack_C1 :
    (∀ cwd entry filename, mkName cwd entry filename = mkNameSpec cwd entry filename)
    ∧ (∀ (env : Env) (sources : List Source) (entry : Str) (source : Source)
        (m : Module), processModule env sources entry source = .ok m →
          m.name = mkName env.cwd entry source.filename)
    ∧ buildGraph env0 (getSources filesB) (strLit "/e.js") [] [strLit "/e.js"]
        = .ok [modBe, modBlib]
    ∧ modBlib.name = strLit "lib/" := by
  refine ⟨?_, ?_, graphB, rfl⟩
  · intro cwd entry filename
    rfl
  · intro env sources entry source m h
    exact (processModule_ok_parts h).2.2.1

theorem mypack_C1_witness :
    modBe.name = mkName env0.cwd (strLit "/e.js") srcBe.filename
    ∧ mkName env0.cwd (strLit "/e.js") (strLit "/lib/index.js")
      = mkNameSpec env0.cwd (strLit "/e.js") (strLit "/lib/index.js") :=
  ⟨mypack_C1.2.1 env0 (getSources filesB) (strLit "/e.js") srcBe modBe rfl,
    mypack_C1.1 env0.cwd (strLit "/e.js") (strLit "/lib/index.js")⟩

/-- C2, counterexample: on the spec's own scenario the entry module's name
is `e`, not `.` — the empty-after-strip case only arises when the entry's
basename is `index.js`, and `e.js` strips to `e`. -/
theorem mypack_C2_cex :
    buildGraph env0 (getSources filesA) (strLit "/e.js") [] [strLit "/e.js"]
      = .ok [modAe, modAa]
    ∧ modAe.name = strLit "e"
    ∧ ¬ modAe.name = strLit "." :=
  ⟨graphA, rfl, by decide⟩

/-- C2 (amended): for the input set {entry `/e.js` requiring `./a.js`,
`/a.js`}, `run()` succeeds, the module names are `e` (entry) and `a`, and
the rewritten entry content contains `myimport("a")` where the load call
was. -/
theorem mypack_C2 :
    outcomeSuccess (run env0 optsA initialState) = some true
    ∧ buildGraph env0 (getSources filesA) (strLit "/e.js") [] [strLit "/e.js"]
      = .ok [modAe, modAa]
    ∧ modAe.name = strLit "e"
    ∧ modAa.name = strLit "a"
    ∧ (strLit "myimport(\x22a\x22)") <:+: modAe.content
    ∧ modAe.content = strLit "var x = myimport(\x22a\x22); x();" := by
  refine ⟨?_, graphA, rfl, rfl, by decide, rfl⟩
  rw [runA]
  rfl

/-- C3: load-call rewriting.  (1) Every module's rewritten content is the
span rewrite of its source content: characters outside the regex matches
are copied verbatim and each match is replaced by
`myimport("<resolved name>");`.  (2) Each match's span is literally
`require("<raw>");`.  (3) That span is `raw.length + 12` characters — the
fixed 12-character overhead around the captured path. -/
theorem mypack_C3 :
    (∀ (env : Env) (sources : List Source) (entry : Str) (source : Source)
      (m : Module), processModule env sources entry source = .ok m →
        m.content = spanRewrite (fun raw => mkRequiredName env.cwd entry
          (resolveRaw env sources (pathDirname source.filename) raw))
          source.jsContent 0)
    ∧ (∀ (cs : Str), ∀ p ∈ scanRequires cs,
        jsSlice cs p.1 (p.1 + (p.2.length + 12)) = requireText p.2)
    ∧ (∀ w : Str, (requireText w).length = w.length + 12) := by
  refine ⟨?_, ?_, ?_⟩
  · intro env sources entry source m h
    obtain ⟨hreq, hcont, _, _⟩ := processModule_ok_parts h
    rw [hcont, hreq]
    have heq := rewriteGo_eq_spanRewrite
      (fun raw => resolveRaw env sources (pathDirname source.filename) raw)
      (fun raw => mkRequiredName env.cwd entry
        (resolveRaw env sources (pathDirname source.filename) raw))
      source.jsContent source.jsContent 0 0 (by simp)
    simpa [rewriteContent, scanRequires] using heq
  · intro cs p hp
    have hm := scanGo_matches cs cs 0 0 (by simp) p hp
    have hspec := matchAt_spec hm
    unfold jsSlice
    have harith : p.1 + (p.2.length + 12) - p.1 = p.2.length + 12 := by omega
    rw [harith]
    exact hspec
  · intro w
    have h9 : (strLit "require(\x22").length = 9 := rfl
    have h3 : (strLit "\x22);").length = 3 := rfl
    simp only [requireText, List.length_append, h9, h3]
    omega

theorem mypack_C3_witness :
    modAe.content = spanRewrite (fun raw => mkRequiredName env0.cwd
        (strLit "/e.js") (resolveRaw env0 (getSources filesA)
          (pathDirname srcAe.filename) raw)) srcAe.jsContent 0
    ∧ jsSlice srcAe.jsContent 8 (8 + ((strLit "./a.js").length + 12))
        = requireText (strLit "./a.js")
    ∧ (requireText (strLit "./a.js")).length = (strLit "./a.js").length + 12 :=
  ⟨mypack_C3.1 env0 (getSources filesA) (strLit "/e.js") srcAe modAe rfl,
    mypack_C3.2.1 srcAe.jsContent (8, strLit "./a.js") (by decide),
    mypack_C3.2.2 (strLit "./a.js")⟩

/-- C4: load-call resolution order and failure.  (1) A successful
resolution returns the first of {literal, literal+`.js`,
literal+`/index.js`} present among the sources.  (2) Resolution returns
nothing exactly when none of the three is present.  (3) Whenever `run`
returns a failure, `hasChange` is absent and nothing is written.  (4) The
`./missing.js` scenario fails with the logged unresolved-load-call
diagnostic, writing nothing. -/
theorem mypack_C4 :
    (∀ (sources : List Source) (full f : Str), resolveRequest sources full = some f →
      (f = full ∧ hasSource sources full = true)
      ∨ (f = full ++ strLit ".js" ∧ hasSource sources full = false
          ∧ hasSource sources f = true)
      ∨ (f = full ++ strLit "/index.js" ∧ hasSource sources full = false
          ∧ hasSource sources (full ++ strLit ".js") = false
          ∧ hasSource sources f = true))
    ∧ (∀ (sources : List Source) (full : Str), resolveRequest sources full = none ↔
        (hasSource sources full = false
          ∧ hasSource sources (full ++ strLit ".js") = false
          ∧ hasSource sources (full ++ strLit "/index.js") = false))
    ∧ (∀ (env : Env) (opts : MyPackOptions) (st : PackerState) (r : RunReturn),
        run env opts st = .ok r → r.result.success = false →
          r.result.hasChange = none ∧ r.writes = [])
    ∧ run env0 optsC initialState =
        .ok ⟨⟨false, none⟩,
          some (.invalidModuleName ⟨strLit "/e.js", strLit "./missing.js", 0⟩),
          [], filesC, initialState⟩ := by
  refine ⟨?_, ?_, ?_, runC⟩
  · intro sources full f h
    unfold resolveRequest at h
    by_cases h1 : hasSource sources full = true
    · rw [if_pos h1] at h; cases h; exact Or.inl ⟨rfl, h1⟩
    · rw [if_neg h1] at h
      rw [Bool.not_eq_true] at h1
      by_cases h2 : hasSource sources (full ++ strLit ".js") = true
      · rw [if_pos h2] at h; cases h; exact Or.inr (Or.inl ⟨rfl, h1, h2⟩)
      · rw [if_neg h2] at h
        rw [Bool.not_eq_true] at h2
        by_cases h3 : hasSource sources (full ++ strLit "/index.js") = true
        · rw [if_pos h3] at h; cases h
          exact Or.inr (Or.inr ⟨rfl, h1, h2, h3⟩)
        · rw [if_neg h3] at h; cases h
  · intro sources full
    constructor
    · intro h
      unfold resolveRequest at h
      by_cases h1 : hasSource sources full = true
      · rw [if_pos h1] at h; cases h
      · rw [if_neg h1] at h
        by_cases h2 : hasSource sources (full ++ strLit ".js") = true
        · rw [if_pos h2] at h; cases h
        · rw [if_neg h2] at h
          by_cases h3 : hasSource sources (full ++ strLit "/index.js") = true
          · rw [if_pos h3] at h; cases h
          · rw [Bool.not_eq_true] at h1 h2 h3
            exact ⟨h1, h2, h3⟩
    · intro ⟨h1, h2, h3⟩
      unfold resolveRequest
      rw [if_neg (by simp [h1]), if_neg (by simp [h2]), if_neg (by simp [h3])]
  · intro env opts st r h hs
    exact ⟨(run_failure_shape h hs).1, (run_failure_shape h hs).2.1⟩

theorem mypack_C4_witness :
    ((⟨⟨false, none⟩,
        some (.invalidModuleName ⟨strLit "/e.js", strLit "./missing.js", 0⟩),
        [], filesC, initialState⟩ : RunReturn).result.hasChange = none
      ∧ (⟨⟨false, none⟩,
          some (.invalidModuleName ⟨strLit "/e.js", strLit "./missing.js", 0⟩),
          [], filesC, initialState⟩ : RunReturn).writes = [])
    ∧ resolveRequest (getSources filesB) (strLit "/lib") = some (strLit "/lib/index.js") :=
  ⟨mypack_C4.2.2.1 env0 optsC initialState _ runC rfl, by decide⟩

/-- C5: cycle detection, formalized through the checker's own traversal
(spec §4.4 defines "resolved as circular" as the traversal reaching a
request for a module already on the loading stack).  (1) Whenever the
traversal meets that condition it reports `circular` — including a module
requesting itself, since the current module's name is on the stack.
(2) Whenever the checker reports `circular`, `run` returns exactly the
circular-reference failure: nothing emitted or written, state untouched,
and — `run` being a function — no other outcome for this condition.
(3) The model's fuel is never the deciding factor.  (4) The two-module
cycle `/a.js ↔ /b.js` fails exactly this way. -/
theorem mypack_C5 :
    (∀ (modules : List Module) (fuel : Nat) (loadings : List Str)
      (r : ModuleRequest) (rs : List ModuleRequest) (rm : Module),
        modules.find? (fun mm => mm.name = r.resolvedModuleName) = some rm →
        loadings.contains rm.name = true →
        loadR modules fuel loadings (r :: rs) = .circular)
    ∧ (∀ (env : Env) (opts : MyPackOptions) (st : PackerState)
        (modules : List Module),
        hasSource (getSources opts.files) opts.entry = true →
        buildGraph env (getSources opts.files) opts.entry [] [opts.entry]
          = .ok modules →
        checkCircularReference modules = .circular →
        run env opts st =
          .ok ⟨⟨false, none⟩, some .circularReference, [], opts.files, st⟩)
    ∧ (∀ modules, checkCircularReference modules ≠ .fuelOut)
    ∧ run env0 optsD initialState =
        .ok ⟨⟨false, none⟩, some .circularReference, [], filesD, initialState⟩ :=
  ⟨loadR_cons_circ, run_circular, chk_no_fuelOut, runD⟩

theorem mypack_C5_witness :
    loadR [modDa, modDb] 1 [strLit "a", strLit "b"] modDb.requests = .circular
    ∧ run env0 optsD initialState =
        .ok ⟨⟨false, none⟩, some .circularReference, [], filesD, initialState⟩ :=
  ⟨mypack_C5.1 [modDa, modDb] 1 [strLit "a", strLit "b"] _ _ modDa rfl rfl,
    mypack_C5.2.1 env0 optsD initialState [modDa, modDb] rfl graphD chkD⟩

/-- C8 (code bug): with source maps enabled and a selected source lacking
a companion map, `run` does not skip the module's map: `mypack.ts:168`
calls `JSON.parse($module.source.mapContent)` unconditionally, and
`JSON.parse(undefined)` raises a `SyntaxError` that propagates out of
emission — even though the `Source` declaration (`mypack.ts:34`) documents
that `mapContent` "can be missing even if source map is on".  Evaluated on
the failing input: one source `/e.js` with no `/e.js.map`, source maps on. -/
theorem mypack_C8 : run env0 optsF initialState = .thrown .mapParse := by
  rw [runF]
  rfl

/-- C9, counterexample: the entry requiring `./a.js` twice enqueues
`/a.js` twice (`mypack.ts:237` filters the push against the array before
the push, not within the batch), so the successfully built graph holds two
modules named `a` — module names are not pairwise distinct. -/
theorem mypack_C9_cex :
    outcomeSuccess (run env0 optsE initialState) = some true
    ∧ buildGraph env0 (getSources filesE) (strLit "/e.js") [] [strLit "/e.js"]
      = .ok [modEe, modEa, modEa]
    ∧ ¬ ([modEe, modEa, modEa].map (fun m => m.name)).Nodup := by
  refine ⟨?_, graphE, by decide⟩
  rw [runE]
  rfl

/-- C9 (amended): for every successfully built module graph the module at
index 0 is the one built from the entry filename; module names, however,
are not necessarily pairwise distinct. -/
theorem mypack_C9 :
    ∀ (env : Env) (sources : List Source) (entry : Str) (mods : List Module),
      buildGraph env sources entry [] [entry] = .ok mods →
        ∃ m tail, mods = m :: tail ∧ m.source.filename = entry :=
  buildGraph_entry_head

theorem mypack_C9_witness :
    ∃ m tail, [modEe, modEa, modEa] = m :: tail
      ∧ m.source.filename = strLit "/e.js" :=
  mypack_C9 env0 (getSources filesE) (strLit "/e.js") [modEe, modEa, modEa] graphE

/-- C10: failure atomicity.  Whenever `run` returns `{success:false}` —
missing entry, unresolved load call, or circular reference — the packer
state (`lastHash`, `lastModules`), the caller-owned file list and the file
system are left exactly as they were: state unchanged, file list
unchanged, nothing written, `hasChange` absent. -/
theorem mypack_C10 :
    ∀ (env : Env) (opts : MyPackOptions) (st : PackerState) (r : RunReturn),
      run env opts st = .ok r → r.result.success = false →
        r.state = st ∧ r.files = opts.files ∧ r.writes = []
          ∧ r.result.hasChange = none :=
  fun _ _ _ _ h hs =>
    ⟨(run_failure_shape h hs).2.2.2, (run_failure_shape h hs).2.2.1,
      (run_failure_shape h hs).2.1, (run_failure_shape h hs).1⟩

theorem mypack_C10_witness :
    (⟨⟨false, none⟩, some .invalidEntry, [], filesH, initialState⟩
        : RunReturn).state = initialState
    ∧ (⟨⟨false, none⟩, some .invalidEntry, [], filesH, initialState⟩
        : RunReturn).files = optsH.files
    ∧ (⟨⟨false, none⟩, some .invalidEntry, [], filesH, initialState⟩
        : RunReturn).writes = []
    ∧ (⟨⟨false, none⟩, some .invalidEntry, [], filesH, initialState⟩
        : RunReturn).result.hasChange = none :=
  mypack_C10 env0 optsH initialState _ runH rfl

/-- C6: source-map merging.  With a generator present and the module's
companion map parsed, `emitModule` re-emits every original mapping with
its generated line shifted to
`originalGeneratedLine − anchor + L + 1`, where `anchor` is the first
mapping's generated line and `L = lineOffset + 1` is the cumulative line
offset once the module's own declaration line (emitted just before the
mappings, `mypack.ts:163-164`) is counted; the generated column is
unchanged, and afterwards the offset advances by the newline count of the
module content. -/
theorem mypack_C6 :
    ∀ (env : Env) (host : EmitHost) (m : Module) (gms : List GenMapping)
      (mc : Str) (mappings : List RawMapping) (anchor : Int),
      host.gen = some gms →
      m.source.mapContent = some mc →
      env.parseMap mc = some mappings →
      anchor = (match mappings.head? with
        | some mp => mp.generatedLine
        | none => 0) →
      emitModule env host m = .ok
        ⟨host.sb ++ moduleEntryText m,
          some (gms ++ mappings.map (fun mp =>
            ⟨pathResolveCore env.cwd [mp.src], mp.originalLine, mp.originalColumn,
              mp.generatedLine - anchor + (host.lineOffset + 1) + 1,
              mp.generatedColumn⟩)),
          host.lineOffset + 1 + (countNewlines m.content : Int)⟩ := by
  intro env host m gms mc mappings anchor hg hmc hpm ha
  subst ha
  obtain ⟨sb, gen, off⟩ := host
  simp only at hg
  subst hg
  simp only [emitModule, hmc, hpm]

/-- Concrete witness data for C6: two mappings anchored at generated line
3, emitted at line offset 10. -/
def mappingsG : List RawMapping :=
  [⟨strLit "/s.ts", 1, 0, 3, 7⟩, ⟨strLit "/s.ts", 2, 1, 4, 5⟩]

def envG : Env :=
  ⟨strLit "/", fun s => s, fun s => s, fun _ m => m, fun _ => some mappingsG,
    fun _ => []⟩

def hostG : EmitHost := ⟨strLit "H", some [], 10⟩

def mG : Module :=
  ⟨strLit "g", ⟨strLit "/g.js", strLit "line1\nline2", some (strLit "rawmap")⟩,
    [], strLit "line1\nline2", strLit "line1\nline2"⟩

theorem mypack_C6_witness :
    emitModule envG hostG mG = .ok
      ⟨hostG.sb ++ moduleEntryText mG,
        some [⟨strLit "/s.ts", 1, 0, 12, 7⟩, ⟨strLit "/s.ts", 2, 1, 13, 5⟩],
        12⟩ :=
  mypack_C6 envG hostG mG [] (strLit "rawmap") mappingsG 3 rfl rfl rfl rfl

/-! ## Stability of the graph under the post-run cleanup (claim C7)

`cleanupMemoryFile` removes only files no module references (as its source
or companion map).  The lemmas below show that the surviving list produces
the same `Source` record for every module filename, hence the same graph,
bundle and hash on the next run. -/

theorem find?_filter_eq {α : Type} (l : List α) (p keep : α → Bool)
    (h : ∀ a ∈ l, p a = true → keep a = true) :
    (l.filter keep).find? p = l.find? p := by
  induction l with
  | nil => rfl
  | cons a l ih =>
    by_cases hp : p a = true
    · rw [List.filter_cons_of_pos (h a (List.mem_cons_self a l) hp)]
      rw [List.find?_cons_of_pos _ hp, List.find?_cons_of_pos _ hp]
    · have ih' := ih (fun b hb => h b (List.mem_cons_of_mem a hb))
      by_cases hk : keep a = true
      · rw [List.filter_cons_of_pos hk]
        rw [List.find?_cons_of_neg _ (by simpa using hp),
          List.find?_cons_of_neg _ (by simpa using hp)]
        exact ih'
      · rw [List.filter_cons_of_neg (by simpa using hk)]
        rw [ih', List.find?_cons_of_neg _ (by simpa using hp)]

theorem filter_swap {α : Type} (l : List α) (p q : α → Bool) :
    (l.filter q).filter p = (l.filter p).filter q := by
  rw [List.filter_filter, List.filter_filter]
  apply List.filter_congr
  intro a _
  rw [Bool.and_comm]

theorem hasSource_eq_isSome (sources : List Source) (x : Str) :
    hasSource sources x = (sources.find? (fun s => s.filename = x)).isSome := by
  induction sources with
  | nil => rfl
  | cons s l ih =>
    by_cases hs : s.filename = x
    · rw [List.find?_cons_of_pos _ (by simpa using hs)]
      simp [hasSource, hs]
    · rw [List.find?_cons_of_neg _ (by simpa using hs)]
      rw [← ih]
      simp [hasSource, hs]

/-- `find?` on the intake sources, reduced to `find?` on the file list. -/
theorem getSources_find? (files : List MFile) (x : Str) :
    (getSources files).find? (fun s => s.filename = x)
      = ((files.filter (fun f => jsEndsWith f.name (strLit ".js"))).find?
          (fun f => f.name = x)).map (mkSource files) := by
  unfold getSources
  rw [List.find?_map]
  rfl

/-- The filename set of the intake sources only shrinks under any filter
of the file list. -/
theorem hasSource_filter_mono (files : List MFile) (keep : MFile → Bool) (x : Str)
    (h : hasSource (getSources (files.filter keep)) x = true) :
    hasSource (getSources files) x = true := by
  rw [hasSource_eq_isSome, getSources_find?] at h ⊢
  rw [filter_swap] at h
  cases hf : (files.filter (fun f => jsEndsWith f.name (strLit ".js"))).find?
      (fun f => f.name = x) with
  | some f => simp [hf]
  | none =>
    exfalso
    have : ((files.filter (fun f => jsEndsWith f.name (strLit ".js"))).filter
        keep).find? (fun f => f.name = x) = none := by
      rw [List.find?_eq_none] at hf ⊢
      intro a ha
      exact hf a (List.mem_of_mem_filter ha)
    rw [this] at h
    simp at h

/-- Files whose name is a module filename, or a module filename plus
`.map`, survive the cleanup. -/
theorem cleanup_keeps (modules : List Module) (g : MFile) (x : Str)
    (hx : x ∈ modules.map (fun m => m.source.filename))
    (hg : g.name = x ∨ g.name = x ++ strLit ".map") :
    (modules.any (fun m => m.source.filename = g.name)
      || modules.any (fun m => m.source.filename ++ strLit ".map" = g.name)) = true := by
  rcases List.mem_map.mp hx with ⟨m, hm, hfn⟩
  rcases hg with hg | hg
  · have h1 : modules.any (fun m2 => m2.source.filename = g.name) = true :=
      List.any_eq_true.mpr ⟨m, hm, by rw [hg]; exact decide_eq_true hfn⟩
    rw [h1, Bool.true_or]
  · have h1 : modules.any (fun m2 => m2.source.filename ++ strLit ".map" = g.name)
        = true :=
      List.any_eq_true.mpr ⟨m, hm, by rw [hg, hfn]; exact decide_eq_true rfl⟩
    rw [h1, Bool.or_true]

/-- For a module filename, cleanup does not change the `Source` record the
intake produces: the file and its companion map both survive, in order. -/
theorem cleanup_find?_eq (modules : List Module) (files : List MFile) (x : Str)
    (hx : x ∈ modules.map (fun m => m.source.filename)) :
    (getSources (cleanupMemoryFile modules files)).find? (fun s => s.filename = x)
      = (getSources files).find? (fun s => s.filename = x) := by
  have hkeep : ∀ g : MFile, g.name = x ∨ g.name = x ++ strLit ".map" →
      (modules.any (fun m => m.source.filename = g.name)
        || modules.any (fun m => m.source.filename ++ strLit ".map" = g.name)) = true :=
    fun g hg => cleanup_keeps modules g x hx hg
  unfold cleanupMemoryFile
  rw [getSources_find?, getSources_find?, filter_swap]
  rw [find?_filter_eq _ _ _ (fun a _ hp => hkeep a (Or.inl (by simpa using hp)))]
  cases hf : (files.filter (fun f => jsEndsWith f.name (strLit ".js"))).find?
      (fun f => f.name = x) with
  | none => rfl
  | some fhat =>
    have hname : fhat.name = x := by simpa using List.find?_some hf
    simp only [Option.map_some']
    congr 1
    unfold mkSource
    congr 1
    rw [find?_filter_eq _ _ _ (fun a _ hp => hkeep a (Or.inr (by
      have : a.name = fhat.name ++ strLit ".map" := by simpa using hp
      rw [this, hname])))]

theorem cleanup_hasSource_mono (modules : List Module) (files : List MFile)
    (x : Str)
    (h : hasSource (getSources (cleanupMemoryFile modules files)) x = true) :
    hasSource (getSources files) x = true := by
  unfold cleanupMemoryFile at h
  exact hasSource_filter_mono files _ x h

theorem cleanup_hasSource_module (modules : List Module) (files : List MFile)
    (x : Str) (hx : x ∈ modules.map (fun m => m.source.filename))
    (h1 : hasSource (getSources files) x = true) :
    hasSource (getSources (cleanupMemoryFile modules files)) x = true := by
  rw [hasSource_eq_isSome, cleanup_find?_eq modules files x hx,
    ← hasSource_eq_isSome]
  exact h1

theorem resolveRequest_stable (modules : List Module) (files : List MFile)
    (full c : Str)
    (hres : resolveRequest (getSources files) full = some c)
    (hc : c ∈ modules.map (fun m => m.source.filename)) :
    resolveRequest (getSources (cleanupMemoryFile modules files)) full = some c := by
  have hmono : ∀ y, hasSource (getSources files) y = false →
      hasSource (getSources (cleanupMemoryFile modules files)) y = false := by
    intro y hy
    cases hh : hasSource (getSources (cleanupMemoryFile modules files)) y with
    | false => rfl
    | true => rw [cleanup_hasSource_mono modules files y hh] at hy; cases hy
  unfold resolveRequest at hres ⊢
  by_cases h1 : hasSource (getSources files) full = true
  · rw [if_pos h1] at hres
    cases hres
    rw [if_pos (cleanup_hasSource_module modules files full hc h1)]
  · rw [if_neg h1] at hres
    rw [Bool.not_eq_true] at h1
    rw [if_neg (by simp [hmono full h1])]
    by_cases h2 : hasSource (getSources files) (full ++ strLit ".js") = true
    · rw [if_pos h2] at hres
      cases hres
      rw [if_pos (cleanup_hasSource_module modules files _ hc h2)]
    · rw [if_neg h2] at hres
      rw [Bool.not_eq_true] at h2
      rw [if_neg (by simp [hmono _ h2])]
      by_cases h3 : hasSource (getSources files) (full ++ strLit "/index.js") = true
      · rw [if_pos h3] at hres
        cases hres
        rw [if_pos (cleanup_hasSource_module modules files _ hc h3)]
      · rw [if_neg h3] at hres
        cases hres

theorem resolveRequests_stable (env : Env) (modules : List Module)
    (files : List MFile) (entry : Str) (source : Source) :
    ∀ (l : List (Nat × Str)) (rs : List ModuleRequest),
      resolveRequests env (getSources files) entry source l = .ok rs →
      (∀ r ∈ rs, r.resolvedFileName ∈ modules.map (fun m => m.source.filename)) →
      resolveRequests env (getSources (cleanupMemoryFile modules files))
        entry source l = .ok rs := by
  intro l
  induction l with
  | nil =>
    intro rs h _
    simpa [resolveRequests] using h
  | cons p rest ih =>
    intro rs h hmem
    obtain ⟨i, raw⟩ := p
    simp only [resolveRequests] at h ⊢
    cases hres : resolveRequest (getSources files)
        (pathResolveCore env.cwd [pathDirname source.filename, raw]) with
    | none => rw [hres] at h; cases h
    | some rf =>
      rw [hres] at h
      cases hrec : resolveRequests env (getSources files) entry source rest with
      | error e => rw [hrec] at h; cases h
      | ok rs' =>
        rw [hrec] at h
        cases h
        have hrf : rf ∈ modules.map (fun m => m.source.filename) :=
          (hmem _ (List.mem_cons_self _ _) : rf ∈ _)
        rw [resolveRequest_stable modules files _ rf hres hrf]
        rw [ih rs' hrec (fun r hr => hmem r (List.mem_cons_of_mem _ hr))]

theorem processModule_stable (env : Env) (modules : List Module)
    (files : List MFile) (entry : Str) (source : Source) (m : Module)
    (h : processModule env (getSources files) entry source = .ok m)
    (hreq : ∀ r ∈ m.requests,
      r.resolvedFileName ∈ modules.map (fun m2 => m2.source.filename)) :
    processModule env (getSources (cleanupMemoryFile modules files))
      entry source = .ok m := by
  unfold processModule at h ⊢
  cases hres : resolveRequests env (getSources files) entry source
      (scanRequires source.jsContent) with
  | error e => rw [hres] at h; cases h
  | ok requests =>
    rw [hres] at h
    cases h
    rw [resolveRequests_stable env modules files entry source _ _ hres hreq]

/-- One BFS step preserves the invariant that every processed module's
resolved targets are somewhere in `requiredFileNames` (processed prefix
plus pending suffix). -/
theorem donehyp_step (done : List Module) (f : Str) (rest : List Str)
    (m : Module) (hmf : m.source.filename = f)
    (hprev : ∀ m' ∈ done, ∀ r ∈ m'.requests,
      r.resolvedFileName ∈ done.map (fun d => d.source.filename) ++ (f :: rest)) :
    ∀ m' ∈ done ++ [m], ∀ r ∈ m'.requests,
      r.resolvedFileName ∈ (done ++ [m]).map (fun d => d.source.filename)
        ++ (rest ++ (m.requests.map (fun r => r.resolvedFileName)).filter
          (fun x => ! ((done.map (fun d => d.source.filename)
            ++ (f :: rest)).contains x))) := by
  intro m' hm' r hr
  rcases List.mem_append.mp hm' with hm' | hm'
  · have ht := hprev m' hm' r hr
    simp only [List.map_append, List.map_cons, List.map_nil, hmf,
      List.mem_append, List.mem_cons] at ht ⊢
    tauto
  · rcases List.mem_singleton.mp hm' with rfl
    by_cases hc : ((done.map (fun d => d.source.filename)
        ++ (f :: rest)).contains r.resolvedFileName) = true
    · have ht : r.resolvedFileName ∈ done.map (fun d => d.source.filename)
          ++ (f :: rest) := by
        rw [contains_eq] at hc
        exact of_decide_eq_true hc
      simp only [List.map_append, List.map_cons, List.map_nil, hmf,
        List.mem_append, List.mem_cons] at ht ⊢
      tauto
    · have hnotmem : r.resolvedFileName ∉ done.map (fun d => d.source.filename)
          ++ (f :: rest) := by
        rw [contains_eq] at hc
        simpa using hc
      have hpred : (! ((done.map (fun d => d.source.filename)
          ++ (f :: rest)).contains r.resolvedFileName)) = true := by
        rw [contains_eq, decide_eq_false hnotmem]
        rfl
      have ht : r.resolvedFileName ∈
          (m'.requests.map (fun r2 => r2.resolvedFileName)).filter
            (fun x => ! ((done.map (fun d => d.source.filename)
              ++ (f :: rest)).contains x)) :=
        List.mem_filter.mpr ⟨List.mem_map_of_mem _ hr, hpred⟩
      exact List.mem_append.mpr (Or.inr (List.mem_append.mpr (Or.inr ht)))

/-- Closure of a built graph: every pending filename ends up as some
module's source filename, and every module's resolved targets are module
filenames of the graph. -/
theorem buildGraph_closure (env : Env) (sources : List Source) (entry : Str) :
    ∀ (done : List Module) (pending : List Str) (mods : List Module),
      buildGraph env sources entry done pending = .ok mods →
      (∀ m ∈ done, ∀ r ∈ m.requests,
        r.resolvedFileName ∈ done.map (fun d => d.source.filename) ++ pending) →
      (∀ f ∈ pending, f ∈ mods.map (fun d => d.source.filename))
      ∧ (∀ m ∈ mods, ∀ r ∈ m.requests,
          r.resolvedFileName ∈ mods.map (fun d => d.source.filename)) := by
  intro done pending
  induction done, pending using buildGraph.induct env sources entry with
  | case1 done =>
    intro mods h hprev
    rw [buildGraph.eq_1] at h
    cases h
    refine ⟨fun f hf => absurd hf (List.not_mem_nil f), ?_⟩
    intro m hm r hr
    have := hprev m hm r hr
    simpa using this
  | case2 done f rest hfind =>
    intro mods h hprev
    rw [buildGraph_notFound _ _ _ _ _ _ hfind] at h
    cases h
  | case3 done f rest s hfind e hpm =>
    intro mods h hprev
    rw [buildGraph_fail _ _ _ _ _ _ _ _ hfind hpm] at h
    cases h
  | case4 done f rest s hfind m hpm seen newFiles ih =>
    intro mods h hprev
    have hmf : m.source.filename = f := by
      rw [processModule_source hpm]
      simpa using List.find?_some hfind
    rw [buildGraph_found _ _ _ _ _ _ _ _ hfind hpm] at h
    have hih := ih mods h (donehyp_step done f rest m hmf hprev)
    have hmem : m ∈ mods := by
      have hpre := buildGraph_prefix env sources entry _ _ mods h
      exact hpre.sublist.mem (by simp)
    refine ⟨?_, hih.2⟩
    intro f' hf'
    rcases List.mem_cons.mp hf' with rfl | hf'
    · rw [← hmf]
      exact List.mem_map_of_mem _ hmem
    · exact hih.1 f' (by simp [hf'])

/-- Every module of a built graph was found among the sources by its
filename. -/
theorem buildGraph_sources (env : Env) (sources : List Source) (entry : Str) :
    ∀ (done : List Module) (pending : List Str) (mods : List Module),
      buildGraph env sources entry done pending = .ok mods →
      (∀ m ∈ done, sources.find?
        (fun s0 => s0.filename = m.source.filename) = some m.source) →
      ∀ m ∈ mods, sources.find?
        (fun s0 => s0.filename = m.source.filename) = some m.source := by
  intro done pending
  induction done, pending using buildGraph.induct env sources entry with
  | case1 done =>
    intro mods h hprev
    rw [buildGraph.eq_1] at h
    cases h
    exact hprev
  | case2 done f rest hfind =>
    intro mods h hprev
    rw [buildGraph_notFound _ _ _ _ _ _ hfind] at h
    cases h
  | case3 done f rest s hfind e hpm =>
    intro mods h hprev
    rw [buildGraph_fail _ _ _ _ _ _ _ _ hfind hpm] at h
    cases h
  | case4 done f rest s hfind m hpm seen newFiles ih =>
    intro mods h hprev
    have hms : m.source = s := processModule_source hpm
    have hsf : s.filename = f := by simpa using List.find?_some hfind
    rw [buildGraph_found _ _ _ _ _ _ _ _ hfind hpm] at h
    refine ih mods h ?_
    intro m' hm'
    rcases List.mem_append.mp hm' with hm' | hm'
    · exact hprev m' hm'
    · rcases List.mem_singleton.mp hm' with rfl
      rw [hms, hsf]
      exact hfind

/-- Stability of the BFS under the post-run cleanup: rebuilding the same
graph from the cleaned file list processes the same modules. -/
theorem buildGraph_stable (env : Env) (modules : List Module)
    (files : List MFile) (entry : Str) :
    ∀ (done : List Module) (pending : List Str),
      buildGraph env (getSources files) entry done pending = .ok modules →
      (∀ m ∈ done, ∀ r ∈ m.requests,
        r.resolvedFileName ∈ done.map (fun d => d.source.filename) ++ pending) →
      buildGraph env (getSources (cleanupMemoryFile modules files)) entry
        done pending = .ok modules := by
  intro done pending
  induction done, pending using buildGraph.induct env (getSources files) entry with
  | case1 done =>
    intro h hprev
    rw [buildGraph.eq_1] at h
    cases h
    exact buildGraph.eq_1 _ _ _ _
  | case2 done f rest hfind =>
    intro h hprev
    rw [buildGraph_notFound _ _ _ _ _ _ hfind] at h
    cases h
  | case3 done f rest s hfind e hpm =>
    intro h hprev
    rw [buildGraph_fail _ _ _ _ _ _ _ _ hfind hpm] at h
    cases h
  | case4 done f rest s hfind m hpm seen newFiles ih =>
    intro h hprev
    have hmf : m.source.filename = f := by
      rw [processModule_source hpm]
      simpa using List.find?_some hfind
    have hclosure := buildGraph_closure env (getSources files) entry done
      (f :: rest) modules h hprev
    have hf_mod : f ∈ modules.map (fun d => d.source.filename) :=
      hclosure.1 f (List.mem_cons_self f rest)
    rw [buildGraph_found _ _ _ _ _ _ _ _ hfind hpm] at h
    have hmem : m ∈ modules := by
      have hpre := buildGraph_prefix env (getSources files) entry _ _ modules h
      exact hpre.sublist.mem (by simp)
    have hfind2 : (getSources (cleanupMemoryFile modules files)).find?
        (fun s0 => s0.filename = f) = some s :=
      (cleanup_find?_eq modules files f hf_mod).trans hfind
    have hpm2 : processModule env (getSources (cleanupMemoryFile modules files))
        entry s = .ok m :=
      processModule_stable env modules files entry s m hpm (hclosure.2 m hmem)
    rw [buildGraph_found _ _ _ _ _ _ _ _ hfind2 hpm2]
    exact ih h (donehyp_step done f rest m hmf hprev)

/-! ## Run-level assembly for claim C7 -/

/-- The bundle text produced after emission (minified when enabled). -/
def bundleJs (env : Env) (opts : MyPackOptions) (host2 : EmitHost) : Str :=
  if opts.minifyEnabled then env.minifyCode (emitRuntimeFoot host2).sb
  else (emitRuntimeFoot host2).sb

/-- The serialized merged map produced after emission. -/
def bundleMap (env : Env) (opts : MyPackOptions) (host2 : EmitHost) : Option Str :=
  if opts.minifyEnabled then
    env.minifyMap (emitRuntimeFoot host2).sb
      ((emitRuntimeFoot host2).gen.map env.serializeMap)
  else (emitRuntimeFoot host2).gen.map env.serializeMap

/-- The writes a successful run performs. -/
def finishWrites (env : Env) (opts : MyPackOptions) (host2 : EmitHost) :
    List (Str × Str) :=
  (opts.output, bundleJs env opts host2) ::
    (if opts.sourceMap then
      [(opts.output ++ strLit ".map", (bundleMap env opts host2).getD [])] else [])

/-- The full return record of a successful run, given the emitted host. -/
def finishRet (env : Env) (opts : MyPackOptions) (st : PackerState)
    (modules : List Module) (host2 : EmitHost) : RunReturn :=
  ⟨⟨true, some (decide (¬ st.lastHash = some (env.digest (bundleJs env opts host2))))⟩,
    none,
    finishWrites env opts host2,
    (if opts.cleanupFiles.getD true then cleanupMemoryFile modules opts.files
      else opts.files),
    ⟨some (env.digest (bundleJs env opts host2)),
      some (modules.map (fun m => ⟨m.name, m.source.filename, m.hash⟩))⟩⟩

theorem finishAfterEmit_ok (env : Env) (opts : MyPackOptions) (st : PackerState)
    (modules : List Module) (host2 : EmitHost) :
    finishAfterEmit env opts st modules (.ok host2)
      = .ok (finishRet env opts st modules host2) := rfl

theorem emitAndFinish_eq_finish (env : Env) (opts : MyPackOptions)
    (st : PackerState) (modules : List Module) (host2 : EmitHost)
    (hem : emitModules env (emitRuntimeHead opts
      (match modules.head? with | some m => m.name | none => [])
      ⟨[], if opts.sourceMap then some [] else none, 0⟩) modules = .ok host2) :
    emitAndFinish env opts st modules
      = finishAfterEmit env opts st modules (.ok host2) := by
  unfold emitAndFinish
  rw [hem]

theorem emitAndFinish_inv {env : Env} {opts : MyPackOptions} {st : PackerState}
    {modules : List Module} {r : RunReturn}
    (h : emitAndFinish env opts st modules = .ok r) :
    ∃ host2, emitModules env (emitRuntimeHead opts
        (match modules.head? with | some m => m.name | none => [])
        ⟨[], if opts.sourceMap then some [] else none, 0⟩) modules = .ok host2
      ∧ r = finishRet env opts st modules host2 := by
  unfold emitAndFinish at h
  revert h
  generalize hem : emitModules env (emitRuntimeHead opts
    (match modules.head? with | some m => m.name | none => [])
    ⟨[], if opts.sourceMap then some [] else none, 0⟩) modules = res
  intro h
  cases res with
  | error e => cases h
  | ok host2 =>
    rw [finishAfterEmit_ok] at h
    cases h
    exact ⟨host2, rfl, rfl⟩

/-- Inverting a successful run: the entry was present, the graph was
built, found acyclic, and the emission half produced the returned record. -/
theorem run_success_inv {env : Env} {opts : MyPackOptions} {st : PackerState}
    {r : RunReturn} (h : run env opts st = .ok r)
    (hs : r.result.success = true) :
    ∃ modules, hasSource (getSources opts.files) opts.entry = true
      ∧ buildGraph env (getSources opts.files) opts.entry [] [opts.entry]
        = .ok modules
      ∧ checkCircularReference modules = .ok
      ∧ emitAndFinish env opts st modules = .ok r := by
  unfold run at h
  split at h
  · cases h; cases hs
  · next hentry =>
    have hentry' : hasSource (getSources opts.files) opts.entry = true := by
      rw [Bool.not_eq_false] at hentry
      exact hentry
    split at h
    · cases h; cases hs
    · cases h
    · next modules hbg =>
      split at h
      · cases h; cases hs
      · cases h
      · cases h
      · next hchk => exact ⟨modules, hentry', hbg, hchk, h⟩

/-- C7: hash stability and unconditional write.  (1) Every successful run
writes the output file first in its write list, whatever `hasChange` is.
(2) Running the same packer again on what the first run left behind (its
possibly cleaned-up file list and its stored state) succeeds with
`hasChange = false` and performs byte-identical writes. -/
theorem mypack_C7 :
    (∀ (env : Env) (opts : MyPackOptions) (st : PackerState) (r : RunReturn),
      run env opts st = .ok r → r.result.success = true →
        ∃ js rest, r.writes = (opts.output, js) :: rest)
    ∧ (∀ (env : Env) (opts : MyPackOptions) (st : PackerState) (r1 : RunReturn),
      run env opts st = .ok r1 → r1.result.success = true →
        ∃ r2, run env { opts with files := r1.files } r1.state = .ok r2
          ∧ r2.result.success = true
          ∧ r2.result.hasChange = some false
          ∧ r2.writes = r1.writes) := by
  constructor
  · intro env opts st r h hs
    obtain ⟨modules, hentry, hbg, hchk, hema⟩ := run_success_inv h hs
    obtain ⟨host2, hem, hr⟩ := emitAndFinish_inv hema
    rw [hr]
    exact ⟨bundleJs env opts host2, _, rfl⟩
  · intro env opts st r1 h hs
    obtain ⟨t, e, fl, sm, o, pm, mi, sh, cf⟩ := opts
    obtain ⟨modules, hentry, hbg, hchk, hema⟩ := run_success_inv h hs
    obtain ⟨host2, hem, hr1⟩ := emitAndFinish_inv hema
    have hstate : r1.state
        = ⟨some (env.digest (bundleJs env ⟨t, e, fl, sm, o, pm, mi, sh, cf⟩ host2)),
          some (modules.map (fun m => ⟨m.name, m.source.filename, m.hash⟩))⟩ := by
      rw [hr1]; rfl
    have hwrites : r1.writes
        = finishWrites env ⟨t, e, fl, sm, o, pm, mi, sh, cf⟩ host2 := by
      rw [hr1]; rfl
    have hemem : e ∈ modules.map (fun m => m.source.filename) := by
      obtain ⟨m0, tail, hmods, hm0⟩ :=
        buildGraph_entry_head env (getSources fl) e modules hbg
      rw [hmods]
      exact hm0 ▸ List.mem_map_of_mem _ (List.mem_cons_self _ _)
    by_cases hcf : cf.getD true = true
    · have hfiles : r1.files = cleanupMemoryFile modules fl := by
        rw [hr1]
        show (if cf.getD true then cleanupMemoryFile modules fl else fl) = _
        rw [if_pos hcf]
      have hentry2 : hasSource (getSources (cleanupMemoryFile modules fl)) e
          = true :=
        cleanup_hasSource_module modules fl e hemem hentry
      have hbg2 : buildGraph env (getSources (cleanupMemoryFile modules fl)) e
          [] [e] = .ok modules :=
        buildGraph_stable env modules fl e [] [e] hbg
          (fun m hm => absurd hm (List.not_mem_nil m))
      rw [hfiles, hstate]
      have hrun2 : run env ⟨t, e, cleanupMemoryFile modules fl, sm, o, pm, mi, sh, cf⟩
          ⟨some (env.digest (bundleJs env ⟨t, e, fl, sm, o, pm, mi, sh, cf⟩ host2)),
            some (modules.map (fun m => ⟨m.name, m.source.filename, m.hash⟩))⟩
          = emitAndFinish env ⟨t, e, cleanupMemoryFile modules fl, sm, o, pm, mi, sh, cf⟩
            ⟨some (env.digest (bundleJs env ⟨t, e, fl, sm, o, pm, mi, sh, cf⟩ host2)),
              some (modules.map (fun m => ⟨m.name, m.source.filename, m.hash⟩))⟩
            modules :=
        run_success env _ _ modules hentry2 hbg2 hchk
      have hem2 : emitModules env (emitRuntimeHead
          ⟨t, e, cleanupMemoryFile modules fl, sm, o, pm, mi, sh, cf⟩
          (match modules.head? with | some m => m.name | none => [])
          ⟨[], if sm then some [] else none, 0⟩) modules = .ok host2 := hem
      have hfin := emitAndFinish_eq_finish env
        ⟨t, e, cleanupMemoryFile modules fl, sm, o, pm, mi, sh, cf⟩
        ⟨some (env.digest (bundleJs env ⟨t, e, fl, sm, o, pm, mi, sh, cf⟩ host2)),
          some (modules.map (fun m => ⟨m.name, m.source.filename, m.hash⟩))⟩
        modules host2 hem2
      refine ⟨_, (hrun2.trans (hfin.trans (finishAfterEmit_ok _ _ _ _ _))), rfl, ?_, ?_⟩
      · show some (decide _) = some false
        congr 1
        rw [decide_eq_false_iff_not]
        intro hne
        exact hne rfl
      · rw [hwrites]
        rfl
    · have hfiles : r1.files = fl := by
        rw [hr1]
        show (if cf.getD true then cleanupMemoryFile modules fl else fl) = _
        rw [if_neg hcf]
      rw [hfiles, hstate]
      have hrun2 : run env ⟨t, e, fl, sm, o, pm, mi, sh, cf⟩
          ⟨some (env.digest (bundleJs env ⟨t, e, fl, sm, o, pm, mi, sh, cf⟩ host2)),
            some (modules.map (fun m => ⟨m.name, m.source.filename, m.hash⟩))⟩
          = emitAndFinish env ⟨t, e, fl, sm, o, pm, mi, sh, cf⟩
            ⟨some (env.digest (bundleJs env ⟨t, e, fl, sm, o, pm, mi, sh, cf⟩ host2)),
              some (modules.map (fun m => ⟨m.name, m.source.filename, m.hash⟩))⟩
            modules :=
        run_success env _ _ modules hentry hbg hchk
      have hfin := emitAndFinish_eq_finish env
        ⟨t, e, fl, sm, o, pm, mi, sh, cf⟩
        ⟨some (env.digest (bundleJs env ⟨t, e, fl, sm, o, pm, mi, sh, cf⟩ host2)),
          some (modules.map (fun m => ⟨m.name, m.source.filename, m.hash⟩))⟩
        modules host2 hem
      refine ⟨_, (hrun2.trans (hfin.trans (finishAfterEmit_ok _ _ _ _ _))), rfl, ?_, ?_⟩
      · show some (decide _) = some false
        congr 1
        rw [decide_eq_false_iff_not]
        intro hne
        exact hne rfl
      · rw [hwrites]
        rfl

/-- The returned record of a non-throwing run (dummy on a thrown run). -/
def outcomeRet (o : RunOutcome) : RunReturn :=
  match o with
  | .ok r => r
  | .thrown _ => ⟨⟨false, none⟩, none, [], [], initialState⟩

def retA : RunReturn := outcomeRet (run env0 optsA initialState)

theorem mypack_C7_witness :
    (∃ js rest, retA.writes = (optsA.output, js) :: rest)
    ∧ (∃ r2, run env0 { optsA with files := retA.files } retA.state = .ok r2
        ∧ r2.result.success = true
        ∧ r2.result.hasChange = some false
        ∧ r2.writes = retA.writes) := by
  have hrunA : run env0 optsA initialState = .ok retA := by
    show run env0 optsA initialState
      = .ok (outcomeRet (run env0 optsA initialState))
    rw [runA]
    rfl
  have hsucc : retA.result.success = true := by
    show (outcomeRet (run env0 optsA initialState)).result.success = true
    rw [runA]
    rfl
  exact ⟨mypack_C7.1 env0 optsA initialState retA hrunA hsucc,
    mypack_C7.2 env0 optsA initialState retA hrunA hsucc⟩

end MyPack
